import Mathlib

/-!
Verification of the media-import engine (`__init__.py`, `src/settings.py`) of
the media-import-2 repository, shallowly embedded in Lean.  Filenames and
settings values are Lean `String`s; Python dicts are insertion-ordered
association lists; host collaborators (the media store and the record
creator of the Anki host, which are external to the repository) are
parameters of the run function.
-/

namespace MediaImport

/-- A Python `dict` with string keys, modelled as an insertion-ordered
association list.  `d[k] = v` updates the value in place when the key is
present (keeping its position) and appends `(k, v)` otherwise.  All dicts in
the source are built from `{}` by such assignments, so keys are never
duplicated. -/
def dictInsert {α : Type} (d : List (String × α)) (k : String) (v : α) :
    List (String × α) :=
  if d.any (fun e => e.1 == k) then
    d.map (fun e => if e.1 = k then (k, v) else e)
  else d ++ [(k, v)]

/-- Python `d[k]` as a total lookup returning `none` when the key is absent
(the callers of this model turn `none` into a `KeyError`). -/
def dictFind {α : Type} : List (String × α) → String → Option α
  | [], _ => none
  | e :: rest, k => if e.1 = k then some e.2 else dictFind rest k

/-- The key list of a dict, in insertion order (`list(d.keys())`). -/
def keys {α : Type} (d : List (String × α)) : List String := d.map Prod.fst

/-- All keys of the dict are distinct; holds for every dict built by
`dictInsert` from `[]`. -/
def NodupKeys {α : Type} (d : List (String × α)) : Prop := (keys d).Nodup

/-- `os.path.splitext` on a bare filename (no directory separators, which is
what `os.walk` yields in the file lists), on the character list: split at the
last `'.'` provided some character strictly before it is not a `'.'`
(CPython's rule, so `".bashrc"` and `"..b"` have no extension); the extension
component keeps the dot. -/
def splitextCore (l : List Char) : List Char × List Char :=
  let rev := l.reverse
  let extRev := rev.takeWhile (fun c => c ≠ '.')
  if extRev.length = rev.length then (l, [])
  else
    let stemRev := rev.drop (extRev.length + 1)
    if stemRev.any (fun c => c ≠ '.') then
      (stemRev.reverse, '.' :: extRev.reverse)
    else (l, [])

/-- `os.path.splitext(fileName)` for a bare filename: `(mediaName, ext)` with
the dot kept on `ext`. -/
def splitext (p : String) : String × String :=
  let r := splitextCore p.toList
  (String.mk r.1, String.mk r.2)

/-- `str.lower()` character by character (the extension sets compared
against are ASCII, where `Char.toLower` agrees with Python's `str.lower`). -/
def strLower (s : String) : String :=
  String.mk (s.toList.map Char.toLower)

/-- `tag.replace(" ", "_")`: with a one-character pattern and replacement,
Python's `str.replace` substitutes every occurrence of the character. -/
def underscoreSpaces (s : String) : String :=
  String.mk (s.toList.map (fun c => if c = ' ' then '_' else c))

/-- `ext[1:].lower()` applied to the `splitext` extension: drop the dot and
lower-case. -/
def extOf (fileName : String) : String :=
  strLower ((splitext fileName).2.drop 1)

/-- Split a character list at newline characters; models the line structure
that `re.MULTILINE` gives to `$`. -/
def splitLines : List Char → List (List Char)
  | [] => [[]]
  | c :: rest =>
    if c = '\n' then [] :: splitLines rest
    else
      match splitLines rest with
      | [] => [[c]]
      | l :: ls => (c :: l) :: ls

/-- `re.search(f".{re.escape(file_pair_suffix)}$", mediaName, re.MULTILINE)`:
some line of the name ends with the (literal) suffix preceded by at least one
further character on that line (`.` does not match a newline, and with
`re.MULTILINE` the anchor `$` matches at the end of every line). -/
def isCandidateSecondary (suffix name : String) : Bool :=
  (splitLines name.toList).any fun line =>
    suffix.length < line.length && suffix.toList.isSuffixOf line

/-- Stable insertion used to model Python's stable `list.sort(key=len)`:
an element is placed before the first element of strictly greater or equal
position whose length is not smaller, i.e. after all earlier elements with
length `≤` its own. -/
def insertByLen (x : String) : List String → List String
  | [] => [x]
  | y :: ys =>
    if y.length < x.length then y :: insertByLen x ys else x :: y :: ys

/-- `secondary_media.sort(key=len)`: stable sort by string length. -/
def sortByLen (l : List String) : List String := l.foldr insertByLen []

/-- State built by the indexing loop of `doMediaImport` (lines 113-128):
`file_ending_index` maps base names to full filenames (later files silently
overwrite earlier ones), and base names are partitioned into
`primary_media` / `secondary_media` by the suffix regex. -/
structure IndexState where
  index : List (String × String)
  primaries : List String
  secondaries : List String
deriving Repr, DecidableEq

/-- One iteration of the indexing loop (lines 113-128): skip files whose
lowered extension is not in `AUDIO + IMAGE`, populate `file_ending_index`
(later files silently overwrite), and partition the base name by the suffix
regex. -/
def classifyStep (audio image : List String) (suffix : String)
    (st : IndexState) (fileName : String) : IndexState :=
  let mediaName := (splitext fileName).1
  let ext := extOf fileName
  if (audio ++ image).contains ext then
    let index := dictInsert st.index mediaName fileName
    if isCandidateSecondary suffix mediaName then
      ⟨index, st.primaries, st.secondaries ++ [mediaName]⟩
    else
      ⟨index, st.primaries ++ [mediaName], st.secondaries⟩
  else st

/-- The indexing loop `for fileName in files:` (lines 113-128). -/
def classifyFiles (audio image : List String) (suffix : String)
    (files : List String) : IndexState :=
  files.foldl (classifyStep audio image suffix) ⟨[], [], []⟩

/-- First matching pass (lines 131-137): for every trivial primary `pf`,
look up `file_ending_index[pf]` and `file_ending_index[pf + suffix]`; a
missing key raises `KeyError` (the "TODO: abort on nonexistent secondary
file" in the source is not implemented).  The accumulator is
`(file_pair_index, secondary_media_matched)`. -/
def firstPassGo (index : List (String × String)) (suffix : String) :
    List String → List (String × String) × List String →
    Except String (List (String × String) × List String)
  | [], acc => .ok acc
  | pf :: rest, acc =>
    match dictFind index pf with
    | none => .error ("KeyError: " ++ pf)
    | some primaryFilename =>
      match dictFind index (pf ++ suffix) with
      | none => .error ("KeyError: " ++ pf ++ suffix)
      | some secondaryFilename =>
        firstPassGo index suffix rest
          (dictInsert acc.1 primaryFilename secondaryFilename,
           acc.2 ++ [pf ++ suffix])

/-- Second matching pass (lines 147-155) over the length-sorted secondary
names: names already recorded in `secondary_media_matched` are skipped,
every other name is treated as a primary for a further-suffixed secondary,
again with `KeyError` on a missing lookup. -/
def secondPassGo (index : List (String × String)) (suffix : String) :
    List String → List (String × String) × List String →
    Except String (List (String × String) × List String)
  | [], acc => .ok acc
  | pf :: rest, acc =>
    if acc.2.contains pf then secondPassGo index suffix rest acc
    else
      match dictFind index pf with
      | none => .error ("KeyError: " ++ pf)
      | some primaryFilename =>
        match dictFind index (pf ++ suffix) with
        | none => .error ("KeyError: " ++ pf ++ suffix)
        | some secondaryFilename =>
          secondPassGo index suffix rest
            (dictInsert acc.1 primaryFilename secondaryFilename,
             acc.2 ++ [pf ++ suffix])

/-- The whole per-folder pairing index construction when secondary media are
used (lines 112-157): classify and partition, run both matching passes, and
return `file_pair_index` (an error models the uncaught `KeyError`). -/
def buildFilePairIndex (audio image : List String) (suffix : String)
    (files : List String) : Except String (List (String × String)) := do
  let st := classifyFiles audio image suffix files
  let acc1 ← firstPassGo st.index suffix st.primaries ([], [])
  let acc2 ← secondPassGo st.index suffix (sortByLen st.secondaries) acc1
  pure acc2.1

/-- A settings value, mirroring the JSON values the settings module of
`src/settings.py` actually stores: strings, booleans, and the two-level
`fieldSettings` table `{note type -> {field name -> configuration}}`. -/
inductive SVal where
  | s (v : String)
  | b (v : Bool)
  | table (v : List (String × List (String × String)))
deriving Repr, DecidableEq

/-- `dataclasses.asdict(TransientSettings())` (lines 58-69 of
`src/settings.py`): the defaults for the transient settings, with the
environment-dependent `os.path.expanduser("~")` as a parameter. -/
def defaultTransientSettings (home : String) : List (String × SVal) :=
  [("loadFolder", .s home), ("includeSubfolders", .b true),
   ("fieldSettings", .table [])]

/-- `dataclasses.asdict(DefaultSettings())` (lines 72-80 of
`src/settings.py`): the defaults for the user settings.  Note the key is
`secondMediaSuffix`, not `secondImageSuffix`. -/
def defaultUserSettings : List (String × SVal) :=
  [("secondMediaSuffix", .s "_2"), ("showExtensionActions", .b false)]

/-- `{**a, **b}`: insert every entry of `b` into a copy of `a`, in order
(later sources win, key positions of `a` are kept). -/
def pyUnion {α : Type} (a b : List (String × α)) : List (String × α) :=
  b.foldl (fun acc e => dictInsert acc e.1 e.2) a

/-- Line 111 of `src/settings.py`: `mergedSettings =
{**defaultTransientSettings, **defaultUserSettings, **transientSettings,
**userSettings}` — keys absent from the loaded documents are filled from the
compiled-in defaults, later sources win. -/
def mergedSettings (home : String) (transientDoc userDoc :
    List (String × SVal)) : List (String × SVal) :=
  pyUnion (pyUnion (pyUnion (defaultTransientSettings home)
    defaultUserSettings) transientDoc) userDoc

/-- `initializeSettings` (lines 83-115 of `src/settings.py`): build
`mergedSettings`, then copy the result item by item into the global
`settings` dict, whose prior contents are `prev` (empty at module load). -/
def initializeSettings (home : String) (prev transientDoc userDoc :
    List (String × SVal)) : List (String × SVal) :=
  pyUnion prev (mergedSettings home transientDoc userDoc)

/-- `saveSettings` (lines 118-136 of `src/settings.py`): split the settings
into the user document (the keys of `DefaultSettings`, in that order, read
from the settings dict — `none` models the `KeyError` on a missing key) and
the transient document (every other entry, in settings order); the pair is
`(userSettings, transientSettings)` as written to the host config and the
transient file. -/
def saveSettings (st : List (String × SVal)) :
    Option (List (String × SVal) × List (String × SVal)) :=
  match (defaultUserSettings.mapM (fun e =>
      (dictFind st e.1).map (fun v => (e.1, v)))) with
  | none => none
  | some userDoc =>
    some (userDoc,
      st.filter (fun e => !(decide (e.1 ∈ keys defaultUserSettings))))

/-- The value produced by one field-mapping action: a single string, or a
list of strings (only the two tag actions produce lists). -/
inductive FieldData where
  | one (s : String)
  | many (l : List String)
deriving Repr, DecidableEq

/-- `os.path.relpath(root, path).split(os.sep)` in this model: the folder's
path segments relative to the import root, which is `["."]` for the root
folder itself (`relpath` of a directory to itself is `"."`). -/
def relPathSegs (segs : List String) : List String :=
  if segs = [] then ["."] else segs

/-- `data.remove(".")` guarded by `if "." in data:` — drop the first
occurrence of `"."` from the segment list (lines 207-208, 212-213). -/
def tagSegs (segs : List String) : List String :=
  (relPathSegs segs).erase "."

/-- One iteration of the mapping loop (lines 178-216): evaluate an action
keyword against the current file context; `none` models `continue` (the
empty action, the media actions on an unsupported extension, and the
fall-through `else`).  `mediaName`, `fileName`, `ext` are the values
computed at lines 162-163, `i` is the `enumerate` index, `segs` the folder's
relative path segments, `internal` / `internal2` the media names returned by
the host for the primary and secondary file. -/
def evalAction (audio image : List String) (mediaName fileName ext : String)
    (i : Nat) (segs : List String) (internal internal2 : String)
    (action : String) : Option FieldData :=
  if action = "" then none
  else if action = "Media" then
    if audio.contains ext then some (.one ("[sound:" ++ internal ++ "]"))
    else if image.contains ext then
      some (.one ("<img src=\"" ++ internal ++ "\">"))
    else none
  else if action = "Media_2" then
    if audio.contains ext then some (.one ("[sound:" ++ internal2 ++ "]"))
    else if image.contains ext then
      some (.one ("<img src=\"" ++ internal2 ++ "\">"))
    else none
  else if action = "File Name" then some (.one mediaName)
  else if action = "File Name (full)" then some (.one fileName)
  else if action = "Extension" then some (.one ext)
  else if action = "Extension (case-sensitive)" then
    some (.one ((splitext mediaName).2.drop 1))
  else if action = "Sequence" then some (.one (toString i))
  else if action = "Subfolder tags (individual)" then some (.many (tagSegs segs))
  else if action = "Subfolder tag (hierarchical)" then
    some (.one (String.intercalate "::" (tagSegs segs)))
  else none

/-- The record assembled for one file: the note's field values (a dict) and
its tag list (`note.tags`). -/
structure NoteRecord where
  fields : List (String × String)
  tags : List String
deriving Repr, DecidableEq

/-- Lines 218-226: store an evaluated value on the note.  For the special
`"Tags"` target a single string is wrapped into a list and every tag has its
spaces replaced by underscores before being appended; otherwise a list is
joined with single spaces and assigned to the field. -/
def applyMapping (note : NoteRecord) (field : String) (special : Bool)
    (data : FieldData) : NoteRecord :=
  if special && field == "Tags" then
    let l := match data with | .one s => [s] | .many l => l
    { note with tags := note.tags ++ l.map underscoreSpaces }
  else
    let s := match data with | .one s => s | .many l => String.intercalate " " l
    { note with fields := dictInsert note.fields field s }

/-- The whole field-population loop (lines 177-226) for one file, starting
from a fresh note. -/
def buildNote (audio image : List String)
    (fieldList : List (String × String × Bool))
    (mediaName fileName ext : String) (i : Nat) (segs : List String)
    (internal internal2 : String) : NoteRecord :=
  fieldList.foldl
    (fun note e =>
      match evalAction audio image mediaName fileName ext i segs internal
          internal2 e.2.1 with
      | none => note
      | some d => applyMapping note e.1 e.2.2 d)
    ⟨[], []⟩

/-- The host collaborators (Anki), external to the repository:
`addFile folder fileName` is the internal media name returned by
`mw.col.media.add_file`, and `addNoteOk k` is whether the `k`-th record
creation attempt (`mw.col.addNote`, counted from 0 over the whole run)
generates at least one card. -/
structure Host where
  addFile : List String → String → String
  addNoteOk : Nat → Bool

/-- The observable state of one import run: `newCount` and `failure` are the
variables of those names in `doMediaImport`, `err` records an uncaught
exception (`KeyError`), `notes` the records handed to `addNote` in order,
`progressReports` the values passed to `mw.progress.update`, and
`storedMedia` the `add_file` requests in order. -/
structure RunState where
  newCount : Nat
  failure : Bool
  err : Option String
  notes : List NoteRecord
  progressReports : List Nat
  storedMedia : List (List String × String)
deriving Repr, DecidableEq

/-- The state at `mw.progress.start`. -/
def initialRunState : RunState :=
  ⟨0, false, none, [], [], []⟩

/-- Lines 228-234: hand the note to the host.  On success `newCount` is
incremented and reported to the progress sink; on failure the `failure` flag
is set (the caller then breaks out of both loops).  Returns the new state
and whether processing continues. -/
def addAttempt (host : Host) (note : NoteRecord) (st : RunState) :
    RunState × Bool :=
  let ok := host.addNoteOk st.notes.length
  let st' := { st with notes := st.notes ++ [note] }
  if ok then
    let n := st'.newCount + 1
    ({ st' with newCount := n,
                progressReports := st'.progressReports ++ [n] }, true)
  else
    ({ st' with failure := true }, false)

/-- The card-creation loop (lines 159-234) over the enumerated file list of
one folder.  Non-media files are skipped; for media files the primary (and,
when pairing is used, the secondary found in `file_pair_index`) is stored
with the host, the note is built and attempted; `break` on failure.  A
missing `file_pair_index` entry models the `KeyError` of line 173. -/
def filesGo (audio image : List String) (host : Host) (pairsUsed : Bool)
    (fieldList : List (String × String × Bool)) (segs : List String)
    (pairIndex : List (String × String)) :
    List (Nat × String) → RunState → RunState
  | [], st => st
  | (i, fileName) :: rest, st =>
    let mediaName := (splitext fileName).1
    let ext := extOf fileName
    if (audio ++ image).contains ext then
      let internal := host.addFile segs fileName
      let st1 := { st with storedMedia := st.storedMedia ++ [(segs, fileName)] }
      if pairsUsed then
        match dictFind pairIndex fileName with
        | none => { st1 with err := some ("KeyError: " ++ fileName) }
        | some fileName2 =>
          let internal2 := host.addFile segs fileName2
          let st2 := { st1 with
            storedMedia := st1.storedMedia ++ [(segs, fileName2)] }
          let note := buildNote audio image fieldList mediaName fileName ext
            i segs internal internal2
          let r := addAttempt host note st2
          if r.2 then
            filesGo audio image host pairsUsed fieldList segs pairIndex rest r.1
          else r.1
      else
        let note := buildNote audio image fieldList mediaName fileName ext
          i segs internal ""
        let r := addAttempt host note st1
        if r.2 then
          filesGo audio image host pairsUsed fieldList segs pairIndex rest r.1
        else r.1
    else filesGo audio image host pairsUsed fieldList segs pairIndex rest st

/-- Process one visited folder (lines 96-234): read
`settings["secondImageSuffix"]` (a `KeyError` when the key is absent — the
settings module only installs `secondMediaSuffix`; a non-string value is
rejected where Python would fail on the first string operation applied to
it), build the pair index when secondary media are used (iterating over
`list(file_pair_index.keys())`), otherwise iterate the raw listing. -/
def processFolder (audio image : List String)
    (settingsDict : List (String × SVal)) (pairsUsed : Bool)
    (fieldList : List (String × String × Bool)) (host : Host)
    (folder : List String × List String) (st : RunState) : RunState :=
  match dictFind settingsDict "secondImageSuffix" with
  | none => { st with err := some "KeyError: secondImageSuffix" }
  | some v =>
    match v with
    | .s suffix =>
      if pairsUsed then
        match buildFilePairIndex audio image suffix folder.2 with
        | .error e => { st with err := some e }
        | .ok pairs =>
          filesGo audio image host pairsUsed fieldList folder.1 pairs
            (keys pairs).enum st
      else
        filesGo audio image host pairsUsed fieldList folder.1 []
          folder.2.enum st
    | _ => { st with err := some "TypeError: secondImageSuffix" }

/-- The folder loop of `doMediaImport` (line 91 with the `break` at line
236): stop as soon as a record-creation failure or an uncaught error has
occurred. -/
def runFolders (audio image : List String)
    (settingsDict : List (String × SVal)) (pairsUsed : Bool)
    (fieldList : List (String × String × Bool)) (host : Host) :
    List (List String × List String) → RunState → RunState
  | [], st => st
  | folder :: rest, st =>
    if st.failure || st.err.isSome then st
    else
      runFolders audio image settingsDict pairsUsed fieldList host rest
        (processFolder audio image settingsDict pairsUsed fieldList host
          folder st)

/-- A directory tree: the root's name, its files in listing order, and its
subdirectories in listing order. -/
inductive DirTree where
  | node (name : String) (files : List String) (subdirs : List DirTree)

/-- The name of a directory. -/
def DirTree.dirName : DirTree → String
  | .node n _ _ => n

mutual

/-- `os.walk` in top-down pre-order, yielding each folder's relative path
segments (empty for the root) and its file listing; when `recursive` is
false the `dirs[:] = []` pruning of line 94 keeps only the root. -/
def walkFrom (recursive : Bool) (segs : List String) :
    DirTree → List (List String × List String)
  | .node _ files subdirs =>
    (segs, files) ::
      (if recursive then walkSubs recursive segs subdirs else [])

/-- Walk a list of subdirectories in order. -/
def walkSubs (recursive : Bool) (segs : List String) :
    List DirTree → List (List String × List String)
  | [] => []
  | t :: ts =>
    walkFrom recursive (segs ++ [t.dirName]) t ++ walkSubs recursive segs ts

end

/-- The import run `doMediaImport` (lines 67-245) from the point where the
dialog has produced its result: decide `file_pairs_used` from the field
list, then walk the tree and process every folder.  The returned state
carries `newCount` and `failure`, which the run reports to the user via the
tooltip and the completion/failure dialog. -/
def doMediaImport (audio image : List String)
    (settingsDict : List (String × SVal)) (recursive : Bool)
    (fieldList : List (String × String × Bool)) (tree : DirTree)
    (host : Host) : RunState :=
  let pairsUsed := fieldList.any (fun e => e.2.1 == "Media_2")
  runFolders audio image settingsDict pairsUsed fieldList host
    (walkFrom recursive [] tree) initialRunState

/-- The value the last entry of the list assigns to key `k`, if any: what
`k` ends up bound to after inserting all entries of the list into a dict. -/
def lastVal {α : Type} : List (String × α) → String → Option α
  | [], _ => none
  | e :: rest, k =>
    match lastVal rest k with
    | some v => some v
    | none => if e.1 = k then some e.2 else none

/-- The keys contributed by inserting the entries of a list into a dict
whose key set is `seen`: first occurrences of keys not already seen, in
insertion order. -/
def newKeys {α : Type} (seen : List String) :
    List (String × α) → List String
  | [] => []
  | e :: rest =>
    if e.1 ∈ seen then newKeys seen rest
    else e.1 :: newKeys (seen ++ [e.1]) rest

/-- Well-formedness of `file_ending_index`: every entry maps the
`splitext` base name of its stored filename to that filename. -/
def IndexWF (d : List (String × String)) : Prop :=
  ∀ e ∈ d, (splitext e.2).1 = e.1

/-- Witness for one emitted pair `e = (primary filename, secondary
filename)`: some base name `b` stored in the index as `e.1` whose suffixed
sibling is stored as `e.2`, where `b` is either a trivial primary or a
candidate secondary not consumed by the first matching pass (`m1` is
`secondary_media_matched` at the end of the first pass). -/
def PairWitness (index : List (String × String)) (suffix : String)
    (m1 : List String) (e : String × String) : Prop :=
  ∃ b, dictFind index b = some e.1 ∧
    dictFind index (b ++ suffix) = some e.2 ∧
    (isCandidateSecondary suffix b = false ∨
      (isCandidateSecondary suffix b = true ∧ ¬ b ∈ m1))

/-- Invariant tying a run state's observable counters to the host's
record-creation outcomes: the progress sink received exactly the values
`1, 2, ..., newCount` (one tick per successful record, none for excluded
files or the failed attempt), every attempt before the `newCount`-th
succeeded, and the number of attempted records is `newCount` (plus the one
failed attempt when the failure flag is set). -/
def CountsInv (host : Host) (st : RunState) : Prop :=
  st.progressReports = (List.range st.newCount).map (fun n => n + 1) ∧
  (∀ j, j < st.newCount → host.addNoteOk j = true) ∧
  (if st.failure then
    st.notes.length = st.newCount + 1 ∧ host.addNoteOk st.newCount = false
  else st.notes.length = st.newCount)

/-- A host whose media store returns the original file name and whose record
creation always succeeds. -/
def alwaysOkHost : Host := ⟨fun _ f => f, fun _ => true⟩

/-- A host whose record creation always fails (e.g. a note type with an
invalid template). -/
def alwaysFailHost : Host := ⟨fun _ f => f, fun _ => false⟩

/-- The scenario folder tree `root/a/img1.jpg, root/a/img1_2.png,
root/b/clip.mp3`. -/
def scenarioTree : DirTree :=
  .node "root" []
    [.node "a" ["img1.jpg", "img1_2.png"] [], .node "b" ["clip.mp3"] []]

/-- The settings dict of a run whose configured pair suffix is `"_2"` (the
legacy key `secondImageSuffix` that `doMediaImport` reads must be present
for the run to get past the first folder at all). -/
def scenarioSettings : List (String × SVal) := [("secondImageSuffix", .s "_2")]

/-- A field list that references the secondary-media action, so pairing is
enabled. -/
def scenarioFields : List (String × String × Bool) :=
  [("Front", "Media", false), ("Back", "Media_2", false)]

theorem keys_nil {α : Type} : keys ([] : List (String × α)) = [] := rfl

theorem keys_cons {α : Type} (e : String × α) (l : List (String × α)) :
    keys (e :: l) = e.1 :: keys l := rfl

theorem keys_append {α : Type} (l1 l2 : List (String × α)) :
    keys (l1 ++ l2) = keys l1 ++ keys l2 := List.map_append _ _ _

theorem mem_keys_head {α : Type} (e : String × α) (rest : List (String × α)) :
    e.1 ∈ keys (e :: rest) := List.mem_cons_self e.1 (keys rest)

theorem mem_keys_tail {α : Type} (e : String × α) {k : String}
    {rest : List (String × α)} (h : k ∈ keys rest) : k ∈ keys (e :: rest) :=
  List.mem_cons_of_mem e.1 h

theorem mem_keys_cases {α : Type} {e : String × α} {k : String}
    {rest : List (String × α)} (h : k ∈ keys (e :: rest)) :
    k = e.1 ∨ k ∈ keys rest := List.mem_cons.mp h

theorem any_key_iff {α : Type} (d : List (String × α)) (k : String) :
    (d.any (fun e => e.1 == k)) = true ↔ k ∈ keys d := by
  simp [keys, List.any_eq_true, List.mem_map, beq_iff_eq]

theorem dictInsert_of_mem {α : Type} {d : List (String × α)} {k : String}
    (v : α) (h : k ∈ keys d) :
    dictInsert d k v = d.map (fun e => if e.1 = k then (k, v) else e) := by
  unfold dictInsert
  rw [if_pos ((any_key_iff d k).mpr h)]

theorem dictInsert_of_not_mem {α : Type} {d : List (String × α)} {k : String}
    (v : α) (h : ¬ k ∈ keys d) :
    dictInsert d k v = d ++ [(k, v)] := by
  unfold dictInsert
  rw [if_neg (fun hc => h ((any_key_iff d k).mp hc))]

theorem keys_map_update {α : Type} (d : List (String × α)) (k : String)
    (v : α) :
    keys (d.map (fun e => if e.1 = k then (k, v) else e)) = keys d := by
  induction d with
  | nil => rfl
  | cons e rest ih =>
    by_cases h : e.1 = k
    · simp [keys, h] at ih ⊢
      exact ih
    · simp [keys, h] at ih ⊢
      exact ih

theorem keys_dictInsert {α : Type} (d : List (String × α)) (k : String)
    (v : α) :
    keys (dictInsert d k v) =
      if k ∈ keys d then keys d else keys d ++ [k] := by
  by_cases h : k ∈ keys d
  · rw [dictInsert_of_mem v h, if_pos h, keys_map_update]
  · rw [dictInsert_of_not_mem v h, if_neg h]
    simp [keys]

theorem dictFind_eq_none_iff {α : Type} (d : List (String × α)) (k : String) :
    dictFind d k = none ↔ ¬ k ∈ keys d := by
  induction d with
  | nil => simp [dictFind, keys]
  | cons e rest ih =>
    by_cases h : e.1 = k
    · simp [dictFind, keys, h]
    · have h1 : ¬ k = e.1 := fun hc => h hc.symm
      simp [dictFind, keys, h, h1, ih]

theorem exists_dictFind_of_mem_keys {α : Type} {d : List (String × α)}
    {k : String} (h : k ∈ keys d) : ∃ v, dictFind d k = some v := by
  cases hf : dictFind d k with
  | none => exact absurd h ((dictFind_eq_none_iff d k).mp hf)
  | some v => exact ⟨v, rfl⟩

theorem dictFind_mem {α : Type} {d : List (String × α)} {k : String} {v : α}
    (h : dictFind d k = some v) : (k, v) ∈ d := by
  induction d with
  | nil => simp [dictFind] at h
  | cons e rest ih =>
    by_cases he : e.1 = k
    · simp only [dictFind, if_pos he, Option.some.injEq] at h
      have : e = (k, v) := Prod.ext he h
      rw [← this]
      exact List.mem_cons_self e rest
    · simp only [dictFind, if_neg he] at h
      exact List.mem_cons_of_mem e (ih h)

theorem dictFind_map_update_self {α : Type} (d : List (String × α))
    (k : String) (v : α) (h : k ∈ keys d) :
    dictFind (d.map (fun e => if e.1 = k then (k, v) else e)) k = some v := by
  induction d with
  | nil => simp [keys] at h
  | cons e rest ih =>
    by_cases he : e.1 = k
    · simp [dictFind, he]
    · have hk : k ∈ keys rest := by
        rcases mem_keys_cases h with h1 | h1
        · exact absurd h1.symm he
        · exact h1
      simpa [dictFind, he] using ih hk

theorem dictFind_append_single_self {α : Type} (d : List (String × α))
    (k : String) (v : α) (h : ¬ k ∈ keys d) :
    dictFind (d ++ [(k, v)]) k = some v := by
  induction d with
  | nil => simp [dictFind]
  | cons e rest ih =>
    have he : ¬ e.1 = k := fun hc => h (hc ▸ mem_keys_head e rest)
    have h2 : ¬ k ∈ keys rest := fun hc => h (mem_keys_tail e hc)
    simpa [dictFind, he] using ih h2

theorem dictFind_insert_self {α : Type} (d : List (String × α)) (k : String)
    (v : α) : dictFind (dictInsert d k v) k = some v := by
  by_cases h : k ∈ keys d
  · rw [dictInsert_of_mem v h]
    exact dictFind_map_update_self d k v h
  · rw [dictInsert_of_not_mem v h]
    exact dictFind_append_single_self d k v h

theorem dictFind_map_update_ne {α : Type} (d : List (String × α))
    (k : String) (v : α) (q : String) (hne : q ≠ k) :
    dictFind (d.map (fun e => if e.1 = k then (k, v) else e)) q =
      dictFind d q := by
  induction d with
  | nil => rfl
  | cons e rest ih =>
    by_cases he : e.1 = k
    · have h1 : ¬ k = q := fun hc => hne hc.symm
      have h2 : ¬ e.1 = q := by rw [he]; exact h1
      simp [dictFind, he, h1, h2, ih]
    · simp [dictFind, he, ih]

theorem dictFind_append_single_ne {α : Type} (d : List (String × α))
    (k : String) (v : α) (q : String) (hne : q ≠ k) :
    dictFind (d ++ [(k, v)]) q = dictFind d q := by
  induction d with
  | nil =>
    have h1 : ¬ k = q := fun hc => hne hc.symm
    simp [dictFind, h1]
  | cons e rest ih =>
    by_cases he : e.1 = q <;> simp [dictFind, he, ih]

theorem dictFind_insert_ne {α : Type} (d : List (String × α)) (k : String)
    (v : α) (q : String) (hne : q ≠ k) :
    dictFind (dictInsert d k v) q = dictFind d q := by
  by_cases h : k ∈ keys d
  · rw [dictInsert_of_mem v h]
    exact dictFind_map_update_ne d k v q hne
  · rw [dictInsert_of_not_mem v h]
    exact dictFind_append_single_ne d k v q hne

theorem nodupKeys_dictInsert {α : Type} {d : List (String × α)} (k : String)
    (v : α) (h : NodupKeys d) : NodupKeys (dictInsert d k v) := by
  unfold NodupKeys at *
  rw [keys_dictInsert]
  by_cases hm : k ∈ keys d
  · rwa [if_pos hm]
  · rw [if_neg hm]
    refine List.Nodup.append h (List.nodup_singleton k) ?_
    intro x hx hk
    rcases List.mem_singleton.mp hk with rfl
    exact hm hx

theorem mem_dictInsert {α : Type} {d : List (String × α)} {k : String}
    {v : α} {e : String × α} (h : e ∈ dictInsert d k v) :
    e ∈ d ∨ e = (k, v) := by
  unfold dictInsert at h
  by_cases hc : (d.any fun e => e.1 == k) = true
  · rw [if_pos hc] at h
    rcases List.mem_map.mp h with ⟨x, hx, hfx⟩
    by_cases hxk : x.1 = k
    · right; rw [← hfx, if_pos hxk]
    · left; rw [← hfx, if_neg hxk]; exact hx
  · rw [if_neg hc] at h
    rcases List.mem_append.mp h with h1 | h1
    · exact .inl h1
    · right; simpa using h1

theorem pyUnion_append {α : Type} (a l1 l2 : List (String × α)) :
    pyUnion a (l1 ++ l2) = pyUnion (pyUnion a l1) l2 :=
  List.foldl_append _ _ _ _

theorem nodupKeys_pyUnion {α : Type} {a : List (String × α)}
    (h : NodupKeys a) (l : List (String × α)) : NodupKeys (pyUnion a l) := by
  induction l generalizing a with
  | nil => exact h
  | cons e rest ih => exact ih (nodupKeys_dictInsert e.1 e.2 h)

theorem dictFind_pyUnion {α : Type} (a l : List (String × α)) (k : String) :
    dictFind (pyUnion a l) k =
      match lastVal l k with
      | some v => some v
      | none => dictFind a k := by
  induction l generalizing a with
  | nil => rfl
  | cons e rest ih =>
    show dictFind (pyUnion (dictInsert a e.1 e.2) rest) k = _
    rw [ih]
    cases hl : lastVal rest k with
    | some v => simp [lastVal, hl]
    | none =>
      simp only [lastVal, hl]
      by_cases he : e.1 = k
      · have := dictFind_insert_self a e.1 e.2
        rw [he] at this
        simp [he, this]
      · have := dictFind_insert_ne a e.1 e.2 k (fun hc => he hc.symm)
        simp [he, this]

theorem keys_pyUnion {α : Type} (a l : List (String × α)) :
    keys (pyUnion a l) = keys a ++ newKeys (keys a) l := by
  induction l generalizing a with
  | nil => simp [pyUnion, newKeys]
  | cons e rest ih =>
    show keys (pyUnion (dictInsert a e.1 e.2) rest) = _
    rw [ih, keys_dictInsert]
    by_cases hm : e.1 ∈ keys a
    · rw [if_pos hm]
      simp [newKeys, hm]
    · rw [if_neg hm]
      simp [newKeys, hm, List.append_assoc]

theorem newKeys_nil_of_mem {α : Type} {l : List (String × α)} :
    ∀ {seen : List String}, (∀ e ∈ l, e.1 ∈ seen) → newKeys seen l = [] := by
  induction l with
  | nil => intro seen _; rfl
  | cons e rest ih =>
    intro seen h
    simp only [newKeys]
    rw [if_pos (h e (List.mem_cons_self e rest))]
    exact ih fun x hx => h x (List.mem_cons_of_mem e hx)

theorem mem_newKeys_not_mem_seen {α : Type} {l : List (String × α)} :
    ∀ {seen : List String} {x : String}, x ∈ newKeys seen l → ¬ x ∈ seen := by
  induction l with
  | nil => intro seen x h; simp [newKeys] at h
  | cons e rest ih =>
    intro seen x h
    simp only [newKeys] at h
    by_cases hm : e.1 ∈ seen
    · rw [if_pos hm] at h
      exact ih h
    · rw [if_neg hm] at h
      rcases List.mem_cons.mp h with h1 | h1
      · rw [h1]; exact hm
      · intro hx
        exact ih h1 (List.mem_append_left _ hx)

theorem newKeys_append {α : Type} (l1 l2 : List (String × α)) :
    ∀ seen, newKeys seen (l1 ++ l2) =
      newKeys seen l1 ++ newKeys (seen ++ newKeys seen l1) l2 := by
  induction l1 with
  | nil => intro seen; simp [newKeys]
  | cons e rest ih =>
    intro seen
    show newKeys seen (e :: (rest ++ l2)) = _
    simp only [newKeys]
    by_cases hm : e.1 ∈ seen
    · rw [if_pos hm, if_pos hm, ih]
    · rw [if_neg hm, if_neg hm]
      simp [ih, List.append_assoc]

theorem newKeys_eq_filter {α : Type} {l : List (String × α)}
    (h : NodupKeys l) :
    ∀ seen, newKeys seen l =
      (keys l).filter (fun k => !(decide (k ∈ seen))) := by
  induction l with
  | nil => intro seen; rfl
  | cons e rest ih =>
    have h1 : ¬ e.1 ∈ keys rest := (List.nodup_cons.mp h).1
    have h2 : NodupKeys rest := (List.nodup_cons.mp h).2
    intro seen
    simp only [newKeys]
    by_cases hm : e.1 ∈ seen
    · rw [if_pos hm, ih h2 seen]
      simp [keys, List.filter_cons, hm]
    · rw [if_neg hm, ih h2 (seen ++ [e.1])]
      simp only [keys, List.map_cons, List.filter_cons]
      rw [if_pos (by simp [hm])]
      congr 1
      apply List.filter_congr
      intro k hk
      have hne : ¬ k = e.1 := fun hc => h1 (hc ▸ hk)
      simp [List.mem_append, hne]

theorem lastVal_eq_dictFind {α : Type} {l : List (String × α)}
    (h : NodupKeys l) (k : String) : lastVal l k = dictFind l k := by
  induction l with
  | nil => rfl
  | cons e rest ih =>
    have h1 : ¬ e.1 ∈ keys rest := (List.nodup_cons.mp h).1
    have h2 : NodupKeys rest := (List.nodup_cons.mp h).2
    simp only [lastVal, dictFind, ih h2]
    by_cases he : e.1 = k
    · rw [← he, (dictFind_eq_none_iff rest e.1).mpr h1]
    · cases hf : dictFind rest k <;> simp [he, hf]

theorem dictFind_append {α : Type} (l1 l2 : List (String × α)) (k : String) :
    dictFind (l1 ++ l2) k =
      match dictFind l1 k with
      | some v => some v
      | none => dictFind l2 k := by
  induction l1 with
  | nil => rfl
  | cons e rest ih =>
    by_cases he : e.1 = k <;> simp [dictFind, he, ih]

theorem lastVal_append {α : Type} (l1 l2 : List (String × α)) (k : String) :
    lastVal (l1 ++ l2) k =
      match lastVal l2 k with
      | some v => some v
      | none => lastVal l1 k := by
  induction l1 with
  | nil => cases hl : lastVal l2 k <;> simp [lastVal, hl]
  | cons e rest ih =>
    show lastVal (e :: (rest ++ l2)) k = _
    simp only [lastVal]
    rw [ih]
    cases hl : lastVal l2 k <;> cases hr : lastVal rest k <;> simp [hl, hr]

theorem keys_filter {α : Type} (l : List (String × α)) (q : String → Bool) :
    keys (l.filter (fun e => q e.1)) = (keys l).filter q := by
  induction l with
  | nil => rfl
  | cons e rest ih =>
    by_cases hq : q e.1 = true <;>
      simp [List.filter_cons, hq, keys_cons, ih]

theorem dictFind_filter {α : Type} (l : List (String × α)) (q : String → Bool)
    (k : String) (hq : q k = true) :
    dictFind (l.filter (fun e => q e.1)) k = dictFind l k := by
  induction l with
  | nil => rfl
  | cons e rest ih =>
    by_cases he : e.1 = k
    · simp [List.filter_cons, he, hq, dictFind]
    · by_cases hqe : q e.1 = true <;>
        simp [List.filter_cons, he, hqe, dictFind, ih]

theorem pyUnion_eq_append {α : Type} :
    ∀ (l a : List (String × α)), (∀ x ∈ keys l, ¬ x ∈ keys a) →
      NodupKeys l → pyUnion a l = a ++ l := by
  intro l
  induction l with
  | nil => intro a _ _; simp [pyUnion]
  | cons e rest ih =>
    intro a hdisj hnd
    show pyUnion (dictInsert a e.1 e.2) rest = a ++ e :: rest
    have hne : ¬ e.1 ∈ keys a := hdisj e.1 (by simp [keys])
    rw [dictInsert_of_not_mem _ hne]
    rw [ih (a ++ [(e.1, e.2)]) ?_ (List.nodup_cons.mp hnd).2]
    · simp
    · intro x hx
      have hxe : ¬ x = e.1 :=
        fun hc => (List.nodup_cons.mp hnd).1 (hc ▸ hx)
      have hxa : ¬ x ∈ keys a :=
        hdisj x (by rw [keys_cons]; exact List.mem_cons_of_mem e.1 hx)
      rw [keys_append]
      intro hc
      rcases List.mem_append.mp hc with h1 | h1
      · exact hxa h1
      · exact hxe (List.mem_singleton.mp h1)

theorem dict_ext {α : Type} :
    ∀ (a b : List (String × α)), NodupKeys a → NodupKeys b →
      keys a = keys b → (∀ k, dictFind a k = dictFind b k) → a = b := by
  intro a
  induction a with
  | nil =>
    intro b _ _ hk _
    have : keys b = [] := hk.symm
    simpa [keys] using (List.map_eq_nil_iff.mp this).symm
  | cons e rest ih =>
    intro b ha hb hk hf
    cases b with
    | nil => simp [keys] at hk
    | cons e2 rest2 =>
      obtain ⟨hk1, hk2⟩ : e.1 = e2.1 ∧ keys rest = keys rest2 := by
        simpa [keys] using hk
      have hv : e.2 = e2.2 := by
        have hfe := hf e.1
        have hc2 : e2.1 = e.1 := hk1.symm
        simp [dictFind, hc2] at hfe
        exact hfe
      have hnm : ¬ e.1 ∈ keys rest := (List.nodup_cons.mp ha).1
      have hnm2 : ¬ e2.1 ∈ keys rest2 := (List.nodup_cons.mp hb).1
      have hf2 : ∀ k, dictFind rest k = dictFind rest2 k := by
        intro k
        by_cases hke : k = e.1
        · rw [hke, (dictFind_eq_none_iff rest e.1).mpr hnm]
          rw [(dictFind_eq_none_iff rest2 e.1).mpr (hk1 ▸ hnm2)]
        · have hfk := hf k
          have hne1 : ¬ e.1 = k := fun hc => hke hc.symm
          have hne2 : ¬ e2.1 = k := fun hc => hke (hc.symm.trans hk1.symm)
          simpa [dictFind, hne1, hne2] using hfk
      have he : e = e2 := Prod.ext hk1 hv
      rw [he, ih rest2 (List.nodup_cons.mp ha).2 (List.nodup_cons.mp hb).2
        hk2 hf2]

theorem string_append_right_cancel {s t u : String} (h : s ++ u = t ++ u) :
    s = t := by
  have hd : s.data ++ u.data = t.data ++ u.data := by
    have := congrArg String.data h
    simpa [String.data_append] using this
  exact String.ext (List.append_cancel_right hd)

theorem insertByLen_perm (x : String) (l : List String) :
    (insertByLen x l).Perm (x :: l) := by
  induction l with
  | nil => exact List.Perm.refl _
  | cons y ys ih =>
    by_cases h : y.length < x.length
    · simp only [insertByLen, if_pos h]
      exact (ih.cons y).trans (List.Perm.swap x y ys)
    · simp only [insertByLen, if_neg h]
      exact List.Perm.refl _

theorem sortByLen_perm (l : List String) : (sortByLen l).Perm l := by
  induction l with
  | nil => exact List.Perm.refl _
  | cons x xs ih =>
    show (insertByLen x (sortByLen xs)).Perm (x :: xs)
    exact (insertByLen_perm x (sortByLen xs)).trans (ih.cons x)

theorem mem_sortByLen {l : List String} {x : String}
    (h : x ∈ sortByLen l) : x ∈ l :=
  (sortByLen_perm l).mem_iff.mp h

theorem indexWF_dictInsert {d : List (String × String)} {k v : String}
    (h : IndexWF d) (hkv : (splitext v).1 = k) :
    IndexWF (dictInsert d k v) := by
  intro e he
  rcases mem_dictInsert he with h1 | h1
  · exact h e h1
  · rw [h1]
    exact hkv

theorem classify_go_index_wf (audio image : List String) (suffix : String) :
    ∀ (files : List String) (st0 : IndexState), IndexWF st0.index →
      IndexWF
        ((files.foldl (classifyStep audio image suffix) st0)).index := by
  intro files
  induction files with
  | nil => intro st0 h; exact h
  | cons f rest ih =>
    intro st0 h
    show IndexWF ((rest.foldl (classifyStep audio image suffix)
      (classifyStep audio image suffix st0 f))).index
    apply ih
    unfold classifyStep
    by_cases hm : (audio ++ image).contains (extOf f) = true
    · rw [if_pos hm]
      by_cases hc : isCandidateSecondary suffix (splitext f).1 = true
      · rw [if_pos hc]
        exact indexWF_dictInsert h rfl
      · rw [if_neg hc]
        exact indexWF_dictInsert h rfl
    · rw [if_neg hm]
      exact h

theorem classifyFiles_index_wf (audio image : List String) (suffix : String)
    (files : List String) :
    IndexWF (classifyFiles audio image suffix files).index :=
  classify_go_index_wf audio image suffix files ⟨[], [], []⟩
    (fun e he => absurd he (List.not_mem_nil e))

theorem classify_go_primaries (audio image : List String) (suffix : String) :
    ∀ (files : List String) (st0 : IndexState),
      (files.foldl (classifyStep audio image suffix) st0).primaries =
        st0.primaries ++
        ((files.filter (fun f => (audio ++ image).contains (extOf f))).map
          (fun f => (splitext f).1)).filter
          (fun b => !(isCandidateSecondary suffix b)) := by
  intro files
  induction files with
  | nil => intro st0; simp
  | cons f rest ih =>
    intro st0
    show (rest.foldl (classifyStep audio image suffix)
      (classifyStep audio image suffix st0 f)).primaries = _
    by_cases hm : (audio ++ image).contains (extOf f) = true
    · have hfc : List.filter (fun g => (audio ++ image).contains (extOf g))
          (f :: rest) =
          f :: List.filter (fun g => (audio ++ image).contains (extOf g))
            rest := List.filter_cons_of_pos hm
      by_cases hc : isCandidateSecondary suffix (splitext f).1 = true
      · have hstep : classifyStep audio image suffix st0 f =
            ⟨dictInsert st0.index (splitext f).1 f, st0.primaries,
             st0.secondaries ++ [(splitext f).1]⟩ := by
          unfold classifyStep
          rw [if_pos hm, if_pos hc]
        have hfb : List.filter (fun b => !(isCandidateSecondary suffix b))
            ((splitext f).1 :: List.map (fun g => (splitext g).1)
              (List.filter (fun g => (audio ++ image).contains (extOf g))
                rest)) =
            List.filter (fun b => !(isCandidateSecondary suffix b))
              (List.map (fun g => (splitext g).1)
                (List.filter (fun g => (audio ++ image).contains (extOf g))
                  rest)) :=
          List.filter_cons_of_neg (by rw [hc]; decide)
        rw [hstep, ih, hfc, List.map_cons, hfb]
      · have hstep : classifyStep audio image suffix st0 f =
            ⟨dictInsert st0.index (splitext f).1 f,
             st0.primaries ++ [(splitext f).1], st0.secondaries⟩ := by
          unfold classifyStep
          rw [if_pos hm, if_neg hc]
        have hfb : List.filter (fun b => !(isCandidateSecondary suffix b))
            ((splitext f).1 :: List.map (fun g => (splitext g).1)
              (List.filter (fun g => (audio ++ image).contains (extOf g))
                rest)) =
            (splitext f).1 :: List.filter
              (fun b => !(isCandidateSecondary suffix b))
              (List.map (fun g => (splitext g).1)
                (List.filter (fun g => (audio ++ image).contains (extOf g))
                  rest)) :=
          List.filter_cons_of_pos (by rw [Bool.eq_false_iff.mpr hc]; decide)
        rw [hstep, ih, hfc, List.map_cons, hfb, List.append_assoc]
        rfl
    · have hstep : classifyStep audio image suffix st0 f = st0 := by
        unfold classifyStep
        rw [if_neg hm]
      have hfc : List.filter (fun g => (audio ++ image).contains (extOf g))
          (f :: rest) =
          List.filter (fun g => (audio ++ image).contains (extOf g)) rest :=
        List.filter_cons_of_neg hm
      rw [hstep, ih, hfc]

theorem classify_go_secondaries (audio image : List String)
    (suffix : String) :
    ∀ (files : List String) (st0 : IndexState),
      (files.foldl (classifyStep audio image suffix) st0).secondaries =
        st0.secondaries ++
        ((files.filter (fun f => (audio ++ image).contains (extOf f))).map
          (fun f => (splitext f).1)).filter
          (fun b => isCandidateSecondary suffix b) := by
  intro files
  induction files with
  | nil => intro st0; simp
  | cons f rest ih =>
    intro st0
    show (rest.foldl (classifyStep audio image suffix)
      (classifyStep audio image suffix st0 f)).secondaries = _
    by_cases hm : (audio ++ image).contains (extOf f) = true
    · have hfc : List.filter (fun g => (audio ++ image).contains (extOf g))
          (f :: rest) =
          f :: List.filter (fun g => (audio ++ image).contains (extOf g))
            rest := List.filter_cons_of_pos hm
      by_cases hc : isCandidateSecondary suffix (splitext f).1 = true
      · have hstep : classifyStep audio image suffix st0 f =
            ⟨dictInsert st0.index (splitext f).1 f, st0.primaries,
             st0.secondaries ++ [(splitext f).1]⟩ := by
          unfold classifyStep
          rw [if_pos hm, if_pos hc]
        have hfb : List.filter (fun b => isCandidateSecondary suffix b)
            ((splitext f).1 :: List.map (fun g => (splitext g).1)
              (List.filter (fun g => (audio ++ image).contains (extOf g))
                rest)) =
            (splitext f).1 :: List.filter
              (fun b => isCandidateSecondary suffix b)
              (List.map (fun g => (splitext g).1)
                (List.filter (fun g => (audio ++ image).contains (extOf g))
                  rest)) :=
          List.filter_cons_of_pos hc
        rw [hstep, ih, hfc, List.map_cons, hfb, List.append_assoc]
        rfl
      · have hstep : classifyStep audio image suffix st0 f =
            ⟨dictInsert st0.index (splitext f).1 f,
             st0.primaries ++ [(splitext f).1], st0.secondaries⟩ := by
          unfold classifyStep
          rw [if_pos hm, if_neg hc]
        have hfb : List.filter (fun b => isCandidateSecondary suffix b)
            ((splitext f).1 :: List.map (fun g => (splitext g).1)
              (List.filter (fun g => (audio ++ image).contains (extOf g))
                rest)) =
            List.filter (fun b => isCandidateSecondary suffix b)
              (List.map (fun g => (splitext g).1)
                (List.filter (fun g => (audio ++ image).contains (extOf g))
                  rest)) :=
          List.filter_cons_of_neg hc
        rw [hstep, ih, hfc, List.map_cons, hfb]
    · have hstep : classifyStep audio image suffix st0 f = st0 := by
        unfold classifyStep
        rw [if_neg hm]
      have hfc : List.filter (fun g => (audio ++ image).contains (extOf g))
          (f :: rest) =
          List.filter (fun g => (audio ++ image).contains (extOf g)) rest :=
        List.filter_cons_of_neg hm
      rw [hstep, ih, hfc]

theorem firstPassGo_ok (index : List (String × String)) (suffix : String) :
    ∀ (l : List String) (acc res : List (String × String) × List String),
      (∀ p ∈ l, isCandidateSecondary suffix p = false) →
      NodupKeys acc.1 →
      (∀ e ∈ acc.1, ∃ b, dictFind index b = some e.1 ∧
        dictFind index (b ++ suffix) = some e.2 ∧
        isCandidateSecondary suffix b = false) →
      firstPassGo index suffix l acc = .ok res →
      NodupKeys res.1 ∧ ∀ e ∈ res.1, ∃ b, dictFind index b = some e.1 ∧
        dictFind index (b ++ suffix) = some e.2 ∧
        isCandidateSecondary suffix b = false := by
  intro l
  induction l with
  | nil =>
    intro acc res _ h1 h2 hres
    cases hres
    exact ⟨h1, h2⟩
  | cons pf rest ih =>
    intro acc res hl h1 h2 hres
    simp only [firstPassGo] at hres
    split at hres
    · exact Except.noConfusion hres
    · next primaryFilename hf1 =>
      split at hres
      · exact Except.noConfusion hres
      · next secondaryFilename hf2 =>
        refine ih _ res (fun p hp => hl p (List.mem_cons_of_mem _ hp))
          (nodupKeys_dictInsert _ _ h1) ?_ hres
        intro e he
        rcases mem_dictInsert he with h3 | h3
        · exact h2 e h3
        · rw [h3]
          exact ⟨pf, hf1, hf2, hl pf (List.mem_cons_self pf rest)⟩

theorem secondPassGo_ok (index : List (String × String)) (suffix : String)
    (m1 : List String) :
    ∀ (l : List String) (acc res : List (String × String) × List String),
      (∀ s ∈ l, isCandidateSecondary suffix s = true) →
      NodupKeys acc.1 →
      (∀ e ∈ acc.1, PairWitness index suffix m1 e) →
      (∃ tail, acc.2 = m1 ++ tail) →
      secondPassGo index suffix l acc = .ok res →
      NodupKeys res.1 ∧ ∀ e ∈ res.1, PairWitness index suffix m1 e := by
  intro l
  induction l with
  | nil =>
    intro acc res _ h1 h2 _ hres
    cases hres
    exact ⟨h1, h2⟩
  | cons pf rest ih =>
    intro acc res hl h1 h2 hpre hres
    simp only [secondPassGo] at hres
    split at hres
    · exact ih _ res (fun s hs => hl s (List.mem_cons_of_mem _ hs)) h1 h2
        hpre hres
    · next hnc =>
      split at hres
      · exact Except.noConfusion hres
      · next primaryFilename hf1 =>
        split at hres
        · exact Except.noConfusion hres
        · next secondaryFilename hf2 =>
          obtain ⟨tail, htail⟩ := hpre
          have hnm1 : ¬ pf ∈ m1 := by
            intro hc
            apply hnc
            rw [htail]
            exact (List.elem_iff).mpr (List.mem_append_left tail hc)
          refine ih _ res (fun s hs => hl s (List.mem_cons_of_mem _ hs))
            (nodupKeys_dictInsert _ _ h1) ?_
            ⟨tail ++ [pf ++ suffix], by rw [htail, List.append_assoc]⟩ hres
          intro e he
          rcases mem_dictInsert he with h3 | h3
          · exact h2 e h3
          · rw [h3]
            exact ⟨pf, hf1, hf2,
              .inr ⟨hl pf (List.mem_cons_self pf rest), hnm1⟩⟩

theorem pairs_snd_nodup (index : List (String × String)) (suffix : String)
    (m1 : List String) (pairs : List (String × String))
    (hwf : IndexWF index) (h1 : NodupKeys pairs)
    (h2 : ∀ e ∈ pairs, PairWitness index suffix m1 e) :
    (pairs.map Prod.snd).Nodup := by
  have hp : pairs.Pairwise (fun e1 e2 => e1.1 ≠ e2.1) :=
    List.pairwise_map.mp h1
  have hps : pairs.Pairwise (fun e1 e2 => e1.2 ≠ e2.2) := by
    refine hp.imp_of_mem ?_
    intro a b ha hb hab
    obtain ⟨b1, hf1a, hf2a, _⟩ := h2 a ha
    obtain ⟨b2, hf1b, hf2b, _⟩ := h2 b hb
    have hbne : b1 ≠ b2 := by
      intro hc
      rw [hc, hf1b] at hf1a
      exact hab (Option.some.inj hf1a).symm
    have hsufne : b1 ++ suffix ≠ b2 ++ suffix :=
      fun hc => hbne (string_append_right_cancel hc)
    have ha2 : (splitext a.2).1 = b1 ++ suffix := hwf _ (dictFind_mem hf2a)
    have hb2 : (splitext b.2).1 = b2 ++ suffix := hwf _ (dictFind_mem hf2b)
    intro hc
    apply hsufne
    rw [← ha2, ← hb2, hc]
  exact List.pairwise_map.mpr hps

theorem mem_keys_of_mem_newKeys {α : Type} {l : List (String × α)} :
    ∀ {seen : List String} {x : String}, x ∈ newKeys seen l → x ∈ keys l := by
  induction l with
  | nil => intro seen x h; simp [newKeys] at h
  | cons e rest ih =>
    intro seen x h
    simp only [newKeys] at h
    by_cases hm : e.1 ∈ seen
    · rw [if_pos hm] at h
      exact mem_keys_tail e (ih h)
    · rw [if_neg hm] at h
      rcases List.mem_cons.mp h with h1 | h1
      · rw [h1]; exact mem_keys_head e rest
      · exact mem_keys_tail e (ih h1)

theorem not_mem_keys_pyUnion {α : Type} {a l : List (String × α)}
    {k : String} (ha : ¬ k ∈ keys a) (hl : ¬ k ∈ keys l) :
    ¬ k ∈ keys (pyUnion a l) := by
  rw [keys_pyUnion]
  intro hc
  rcases List.mem_append.mp hc with h1 | h1
  · exact ha h1
  · exact hl (mem_keys_of_mem_newKeys h1)

theorem lastVal_eq_none_iff {α : Type} (l : List (String × α)) (k : String) :
    lastVal l k = none ↔ ¬ k ∈ keys l := by
  induction l with
  | nil => simp [lastVal, keys]
  | cons e rest ih =>
    simp only [lastVal]
    cases hr : lastVal rest k with
    | some v =>
      have hk : k ∈ keys rest := by
        by_contra hc
        rw [ih.mpr hc] at hr
        exact Option.noConfusion hr
      constructor
      · intro h; exact Option.noConfusion h
      · intro h; exact absurd (mem_keys_tail e hk) h
    | none =>
      have hk : ¬ k ∈ keys rest := ih.mp hr
      by_cases he : e.1 = k
      · constructor
        · intro h; rw [if_pos he] at h; exact Option.noConfusion h
        · intro h; exact absurd (he ▸ mem_keys_head e rest) h
      · rw [if_neg he]
        constructor
        · intro _ hc
          rcases mem_keys_cases hc with h1 | h1
          · exact he h1.symm
          · exact hk h1
        · intro _; rfl

/-- C1, counterexample: in the scenario `root/a/img1.jpg, root/a/img1_2.png,
root/b/clip.mp3` with pairing enabled, suffix `"_2"` and recursive=true, the
trivial primary `clip` whose name plus suffix is absent from folder `b`'s
index does NOT yield an unpaired emission: the first indexing pass raises an
uncaught `KeyError` on `clip_2` and the run aborts, so the claimed pair
`(clip.mp3, absent)` is never produced. -/
theorem c1_missing_secondary_is_lookup_failure :
    buildFilePairIndex ["mp3"] ["jpg", "png"] "_2" ["clip.mp3"] =
      .error "KeyError: clip_2" ∧
    (doMediaImport ["mp3"] ["jpg", "png"] scenarioSettings true scenarioFields
      scenarioTree alwaysOkHost).err = some "KeyError: clip_2" := by
  constructor <;> rfl

/-- C1, amended: in the scenario, folder `a` yields exactly the pair
`(img1.jpg, img1_2.png)` (which is imported), and folder `b`'s first
indexing pass fails with a key-lookup error on `clip_2`, aborting the run
with one record created — a trivial primary with no matching secondary
causes a lookup failure instead of an unpaired emission. -/
theorem c1_scenario_pairs :
    buildFilePairIndex ["mp3"] ["jpg", "png"] "_2" ["img1.jpg", "img1_2.png"]
      = .ok [("img1.jpg", "img1_2.png")] ∧
    buildFilePairIndex ["mp3"] ["jpg", "png"] "_2" ["clip.mp3"] =
      .error "KeyError: clip_2" ∧
    (doMediaImport ["mp3"] ["jpg", "png"] scenarioSettings true scenarioFields
        scenarioTree alwaysOkHost) =
      { newCount := 1, failure := false, err := some "KeyError: clip_2",
        notes := [⟨[("Front", "<img src=\"img1.jpg\">"),
                    ("Back", "<img src=\"img1_2.png\">")], []⟩],
        progressReports := [1],
        storedMedia := [(["a"], "img1.jpg"), (["a"], "img1_2.png")] } := by
  refine ⟨rfl, rfl, rfl⟩

/-- C2: for every folder indexed with pairing enabled (the two matching
passes over the classified files, as run by `buildFilePairIndex`), every
emitted pair's primary filename is stored in the index under a base name
that is either a trivial primary or a candidate secondary not consumed by
the first pass (`m1` is `secondary_media_matched` after the first pass),
every primary is paired with at most one secondary (the primary filenames
of the emitted pairs are distinct), and no filename appears as the
secondary of two distinct emitted pairs. -/
theorem c2_pairing_invariant (audio image : List String) (suffix : String)
    (files : List String) (pairs1 : List (String × String))
    (m1 : List String) (pairs : List (String × String)) (m2 : List String)
    (h1 : firstPassGo (classifyFiles audio image suffix files).index suffix
      (classifyFiles audio image suffix files).primaries ([], []) =
      .ok (pairs1, m1))
    (h2 : secondPassGo (classifyFiles audio image suffix files).index suffix
      (sortByLen (classifyFiles audio image suffix files).secondaries)
      (pairs1, m1) = .ok (pairs, m2)) :
    buildFilePairIndex audio image suffix files = .ok pairs ∧
    (pairs.map Prod.fst).Nodup ∧
    (pairs.map Prod.snd).Nodup ∧
    ∀ e ∈ pairs, ∃ b,
      dictFind (classifyFiles audio image suffix files).index b =
        some e.1 ∧
      dictFind (classifyFiles audio image suffix files).index (b ++ suffix)
        = some e.2 ∧
      (isCandidateSecondary suffix b = false ∨
        (isCandidateSecondary suffix b = true ∧ ¬ b ∈ m1)) := by
  have hwf : IndexWF (classifyFiles audio image suffix files).index :=
    classifyFiles_index_wf audio image suffix files
  have hP : ∀ p ∈ (classifyFiles audio image suffix files).primaries,
      isCandidateSecondary suffix p = false := by
    intro p hp
    rw [show (classifyFiles audio image suffix files).primaries =
        ((files.filter (fun f => (audio ++ image).contains (extOf f))).map
          (fun f => (splitext f).1)).filter
          (fun b => !(isCandidateSecondary suffix b)) from
      classify_go_primaries audio image suffix files ⟨[], [], []⟩] at hp
    rcases List.mem_filter.mp hp with ⟨_, hpred⟩
    simpa using hpred
  have hS : ∀ s ∈ sortByLen
      (classifyFiles audio image suffix files).secondaries,
      isCandidateSecondary suffix s = true := by
    intro s hs
    have hs2 := mem_sortByLen hs
    rw [show (classifyFiles audio image suffix files).secondaries =
        ((files.filter (fun f => (audio ++ image).contains (extOf f))).map
          (fun f => (splitext f).1)).filter
          (fun b => isCandidateSecondary suffix b) from
      classify_go_secondaries audio image suffix files ⟨[], [], []⟩] at hs2
    exact (List.mem_filter.mp hs2).2
  obtain ⟨hn1, hw1⟩ := firstPassGo_ok
    (classifyFiles audio image suffix files).index suffix
    (classifyFiles audio image suffix files).primaries ([], [])
    (pairs1, m1) hP List.nodup_nil
    (fun e he => absurd he (List.not_mem_nil e)) h1
  obtain ⟨hn2, hw2⟩ := secondPassGo_ok
    (classifyFiles audio image suffix files).index suffix m1
    (sortByLen (classifyFiles audio image suffix files).secondaries)
    (pairs1, m1) (pairs, m2) hS hn1
    (fun e he => by
      obtain ⟨b, hb1, hb2, hb3⟩ := hw1 e he
      exact ⟨b, hb1, hb2, .inl hb3⟩)
    ⟨[], (List.append_nil m1).symm⟩ h2
  refine ⟨?_, hn2, ?_, fun e he => hw2 e he⟩
  · simp only [buildFilePairIndex, h1]
    show Prod.fst <$> secondPassGo
      (classifyFiles audio image suffix files).index suffix
      (sortByLen (classifyFiles audio image suffix files).secondaries)
      (pairs1, m1) = Except.ok pairs
    rw [h2]
    rfl
  · exact pairs_snd_nodup _ suffix m1 pairs hwf hn2 hw2

/-- Witness for C2: the concrete folder `["img1.jpg", "img1_2.png"]` with
suffix `"_2"` satisfies the stage hypotheses and the conclusions of
`c2_pairing_invariant`. -/
theorem c2_pairing_invariant_witness :
    (firstPassGo (classifyFiles [] ["jpg", "png"] "_2"
        ["img1.jpg", "img1_2.png"]).index "_2"
      (classifyFiles [] ["jpg", "png"] "_2"
        ["img1.jpg", "img1_2.png"]).primaries ([], []) =
      .ok ([("img1.jpg", "img1_2.png")], ["img1_2"])) ∧
    (secondPassGo (classifyFiles [] ["jpg", "png"] "_2"
        ["img1.jpg", "img1_2.png"]).index "_2"
      (sortByLen (classifyFiles [] ["jpg", "png"] "_2"
        ["img1.jpg", "img1_2.png"]).secondaries)
      ([("img1.jpg", "img1_2.png")], ["img1_2"]) =
      .ok ([("img1.jpg", "img1_2.png")], ["img1_2"])) ∧
    (buildFilePairIndex [] ["jpg", "png"] "_2" ["img1.jpg", "img1_2.png"] =
      .ok [("img1.jpg", "img1_2.png")] ∧
    ([("img1.jpg", "img1_2.png")].map Prod.fst).Nodup ∧
    ([("img1.jpg", "img1_2.png")].map Prod.snd).Nodup ∧
    ∀ e ∈ [("img1.jpg", "img1_2.png")], ∃ b,
      dictFind (classifyFiles [] ["jpg", "png"] "_2"
        ["img1.jpg", "img1_2.png"]).index b = some e.1 ∧
      dictFind (classifyFiles [] ["jpg", "png"] "_2"
        ["img1.jpg", "img1_2.png"]).index (b ++ "_2") = some e.2 ∧
      (isCandidateSecondary "_2" b = false ∨
        (isCandidateSecondary "_2" b = true ∧ ¬ b ∈ ["img1_2"]))) :=
  ⟨rfl, rfl,
   c2_pairing_invariant [] ["jpg", "png"] "_2" ["img1.jpg", "img1_2.png"]
     [("img1.jpg", "img1_2.png")] ["img1_2"] [("img1.jpg", "img1_2.png")]
     ["img1_2"] rfl rfl⟩

theorem splitLines_of_no_newline :
    ∀ (l : List Char), l.all (fun c => c != '\n') = true →
      splitLines l = [l] := by
  intro l
  induction l with
  | nil => intro _; rfl
  | cons c rest ih =>
    intro h
    rw [List.all_cons] at h
    have h2 := (Bool.and_eq_true _ _).mp h
    have hcne : ¬ c = '\n' := by simpa using h2.1
    simp only [splitLines]
    rw [if_neg hcne, ih h2.2]

/-- C8, counterexample: a base name exactly equal to the pair suffix is NOT
classified as a candidate secondary: the regex `.{suffix}$` of line 125
requires at least one character before the suffix, so `_2` with suffix
`"_2"` fails the search and the file `_2.jpg` is partitioned as a trivial
primary. -/
theorem c8_suffix_only_name_is_primary :
    isCandidateSecondary "_2" "_2" = false ∧
    (classifyFiles [] ["jpg"] "_2" ["_2.jpg"]).primaries = ["_2"] ∧
    (classifyFiles [] ["jpg"] "_2" ["_2.jpg"]).secondaries = [] := by
  refine ⟨rfl, rfl, rfl⟩

/-- C8, amended: during pairing-enabled indexing the classified base names
(of the media files, in listing order) are partitioned by the regex test:
candidate secondaries are the base names on which the suffix search
succeeds, trivial primaries are the rest; and for newline-free names the
search succeeds exactly when the name ends with the suffix AND is strictly
longer than it — so a base name exactly equal to the suffix is a trivial
primary. -/
theorem c8_partition (audio image : List String) (suffix : String)
    (files : List String) :
    (classifyFiles audio image suffix files).primaries =
      ((files.filter (fun f => (audio ++ image).contains (extOf f))).map
        (fun f => (splitext f).1)).filter
        (fun b => !(isCandidateSecondary suffix b)) ∧
    (classifyFiles audio image suffix files).secondaries =
      ((files.filter (fun f => (audio ++ image).contains (extOf f))).map
        (fun f => (splitext f).1)).filter
        (fun b => isCandidateSecondary suffix b) ∧
    (∀ name : String, name.toList.all (fun c => c != '\n') = true →
      isCandidateSecondary suffix name =
        (decide (suffix.length < name.length) &&
          suffix.toList.isSuffixOf name.toList)) := by
  refine ⟨classify_go_primaries audio image suffix files ⟨[], [], []⟩,
    classify_go_secondaries audio image suffix files ⟨[], [], []⟩, ?_⟩
  intro name hfree
  unfold isCandidateSecondary
  rw [splitLines_of_no_newline name.toList hfree]
  simp [List.any_cons]

/-- Witness for C8's amended theorem: the inner equivalence discharged at
the concrete newline-free name `img1_2`. -/
theorem c8_partition_witness :
    ("img1_2".toList.all (fun c => c != '\n') = true) ∧
    isCandidateSecondary "_2" "img1_2" =
      (decide (("_2" : String).length < ("img1_2" : String).length) &&
        ("_2" : String).toList.isSuffixOf ("img1_2" : String).toList) :=
  ⟨by decide,
   (c8_partition [] ["jpg"] "_2" []).2.2 "img1_2" (by decide)⟩

/-- C3: for the file `Image.JPG`, the `Extension` action evaluates to the
lower-cased extension `"jpg"` as claimed, but `Extension (case-sensitive)`
evaluates to `""`, not `"JPG"`: line 201 applies `os.path.splitext` to
`mediaName` — the base name whose extension was already stripped — instead
of to the filename, contradicting the action's own tooltip
(`"image.JPG" -> "JPG"`, line 57). -/
theorem c3_extension_exact_drops_extension :
    evalAction ["mp3"] ["jpg"] (splitext "Image.JPG").1 "Image.JPG"
        (extOf "Image.JPG") 0 [] "m" "" "Extension" =
      some (.one "jpg") ∧
    evalAction ["mp3"] ["jpg"] (splitext "Image.JPG").1 "Image.JPG"
        (extOf "Image.JPG") 0 [] "m" "" "Extension (case-sensitive)" =
      some (.one "") := by
  constructor <;> rfl

/-- C4, counterexample: with pairing disabled and the folder listing
`["a.txt", "b.jpg"]` (an excluded file before a media file), exactly one
file is imported but its `Sequence` value is `"1"`, not `"0"`: the
`enumerate` index of line 159 counts excluded directory entries too, so the
values are not gap-free. -/
theorem c4_sequence_has_gaps :
    (doMediaImport [] ["jpg"] scenarioSettings false
        [("Front", "Sequence", false)] (.node "root" ["a.txt", "b.jpg"] [])
        alwaysOkHost) =
      { newCount := 1, failure := false, err := none,
        notes := [⟨[("Front", "1")], []⟩], progressReports := [1],
        storedMedia := [([], "b.jpg")] } := by
  rfl

/-- C6, counterexample: the root folder's listing contains one visited file,
`a.txt`, which is excluded; the run reports no progress tick at all for it
(line 234 runs only after a successful `addNote`), so it is false that every
visited file produces exactly one tick. -/
theorem c6_excluded_file_gets_no_tick :
    (doMediaImport [] ["jpg"] scenarioSettings false
        [("Front", "Media", false)] (.node "root" ["a.txt"] [])
        alwaysOkHost) =
      { newCount := 0, failure := false, err := none, notes := [],
        progressReports := [], storedMedia := [] } := by
  rfl

/-- C7, counterexample: for a file in the import root itself (relative path
`"."`), the hierarchical tag action does contribute a tag: `"::".join([])`
is the empty string, which is wrapped into a one-element list and appended,
so the record's tag sequence is `[""]`, not empty. -/
theorem c7_root_hierarchical_tag_is_empty_string :
    (buildNote [] ["jpg"] [("Tags", "Subfolder tag (hierarchical)", true)]
        "a" "a.jpg" "jpg" 0 [] "m" "").tags = [""] := by
  rfl

theorem countsInv_initial (host : Host) : CountsInv host initialRunState :=
  ⟨rfl, fun j hj => absurd hj (Nat.not_lt_zero j), rfl⟩

theorem addAttempt_ok (host : Host) (note : NoteRecord) (st : RunState)
    (hok : host.addNoteOk st.notes.length = true) :
    addAttempt host note st =
      ({ st with
          notes := st.notes ++ [note]
          newCount := st.newCount + 1
          progressReports := st.progressReports ++ [st.newCount + 1] },
       true) := by
  simp [addAttempt, hok]

theorem addAttempt_fail (host : Host) (note : NoteRecord) (st : RunState)
    (hok : host.addNoteOk st.notes.length = false) :
    addAttempt host note st =
      ({ st with
          notes := st.notes ++ [note]
          failure := true },
       false) := by
  simp [addAttempt, hok]

theorem addAttempt_inv (host : Host) (note : NoteRecord) (st : RunState)
    (hf : st.failure = false) (hc : CountsInv host st) :
    CountsInv host (addAttempt host note st).1 ∧
      ((addAttempt host note st).2 = true →
        (addAttempt host note st).1.failure = false) := by
  obtain ⟨h1, h2, h3⟩ := hc
  rw [hf] at h3
  simp only [Bool.false_eq_true, if_false] at h3
  cases hok : host.addNoteOk st.notes.length with
  | true =>
    rw [addAttempt_ok host note st hok]
    refine ⟨⟨?_, ?_, ?_⟩, fun _ => hf⟩
    · simp [h1, List.range_succ]
    · intro j hj
      rcases Nat.lt_succ_iff_lt_or_eq.mp hj with h | h
      · exact h2 j h
      · rw [h, ← h3]; exact hok
    · simp [hf, h3]
  | false =>
    rw [addAttempt_fail host note st hok]
    refine ⟨⟨h1, h2, ?_⟩, by simp⟩
    simp only [if_true]
    exact ⟨by simp [h3], by rw [← h3]; exact hok⟩

theorem filesGo_inv (audio image : List String) (host : Host)
    (pairsUsed : Bool) (fieldList : List (String × String × Bool))
    (segs : List String) (pairIndex : List (String × String))
    (l : List (Nat × String)) (st : RunState)
    (hf : st.failure = false) (hc : CountsInv host st) :
    CountsInv host
      (filesGo audio image host pairsUsed fieldList segs pairIndex l st) := by
  induction l generalizing st with
  | nil => exact hc
  | cons e rest ih =>
    obtain ⟨i, fileName⟩ := e
    simp only [filesGo]
    by_cases hm : (audio ++ image).contains (extOf fileName) = true
    · rw [if_pos hm]
      cases pairsUsed with
      | true =>
        rw [if_pos rfl]
        split
        · exact hc
        · next fileName2 hfind =>
          have h := addAttempt_inv host
            (buildNote audio image fieldList (splitext fileName).1 fileName
              (extOf fileName) i segs (host.addFile segs fileName)
              (host.addFile segs fileName2))
            { st with storedMedia := (st.storedMedia ++ [(segs, fileName)])
                ++ [(segs, fileName2)] } hf hc
          by_cases hcont : (addAttempt host
              (buildNote audio image fieldList (splitext fileName).1 fileName
                (extOf fileName) i segs (host.addFile segs fileName)
                (host.addFile segs fileName2))
              { st with storedMedia := (st.storedMedia ++ [(segs, fileName)])
                  ++ [(segs, fileName2)] }).2 = true
          · rw [if_pos hcont]
            exact ih _ (h.2 hcont) h.1
          · rw [if_neg hcont]
            exact h.1
      | false =>
        rw [if_neg (by decide : ¬(false = true))]
        have h := addAttempt_inv host
          (buildNote audio image fieldList (splitext fileName).1 fileName
            (extOf fileName) i segs (host.addFile segs fileName) "")
          { st with storedMedia := st.storedMedia ++ [(segs, fileName)] }
          hf hc
        by_cases hcont : (addAttempt host
            (buildNote audio image fieldList (splitext fileName).1 fileName
              (extOf fileName) i segs (host.addFile segs fileName) "")
            { st with
                storedMedia := st.storedMedia ++ [(segs, fileName)] }).2 = true
        · rw [if_pos hcont]
          exact ih _ (h.2 hcont) h.1
        · rw [if_neg hcont]
          exact h.1
    · rw [if_neg hm]
      exact ih st hf hc

theorem processFolder_inv (audio image : List String)
    (settingsDict : List (String × SVal)) (pairsUsed : Bool)
    (fieldList : List (String × String × Bool)) (host : Host)
    (folder : List String × List String) (st : RunState)
    (hf : st.failure = false) (hc : CountsInv host st) :
    CountsInv host
      (processFolder audio image settingsDict pairsUsed fieldList host folder
        st) := by
  simp only [processFolder]
  split
  · exact hc
  · split
    · cases pairsUsed with
      | true =>
        rw [if_pos rfl]
        split
        · exact hc
        · exact filesGo_inv _ _ _ _ _ _ _ _ _ hf hc
      | false =>
        rw [if_neg (by decide : ¬(false = true))]
        exact filesGo_inv _ _ _ _ _ _ _ _ _ hf hc
    · exact hc

theorem runFolders_inv (audio image : List String)
    (settingsDict : List (String × SVal)) (pairsUsed : Bool)
    (fieldList : List (String × String × Bool)) (host : Host)
    (l : List (List String × List String)) (st : RunState)
    (hc : CountsInv host st) :
    CountsInv host
      (runFolders audio image settingsDict pairsUsed fieldList host l st) := by
  induction l generalizing st with
  | nil => exact hc
  | cons folder rest ih =>
    simp only [runFolders]
    by_cases hguard : (st.failure || st.err.isSome) = true
    · rw [if_pos hguard]; exact hc
    · rw [if_neg hguard]
      have hf : st.failure = false := by
        cases h : st.failure with
        | false => rfl
        | true => exact absurd (by rw [h]; rfl) hguard
      exact ih _ (processFolder_inv _ _ _ _ _ _ _ _ hf hc)

theorem doMediaImport_inv (audio image : List String)
    (settingsDict : List (String × SVal)) (recursive : Bool)
    (fieldList : List (String × String × Bool)) (tree : DirTree)
    (host : Host) :
    CountsInv host
      (doMediaImport audio image settingsDict recursive fieldList tree
        host) :=
  runFolders_inv _ _ _ _ _ _ _ _ (countsInv_initial host)

/-- After a record-creation failure the folder loop is inert: `break` at
line 236 means no later folder is ever processed. -/
theorem runFolders_halt (audio image : List String)
    (settingsDict : List (String × SVal)) (pairsUsed : Bool)
    (fieldList : List (String × String × Bool)) (host : Host)
    (l : List (List String × List String)) (st : RunState)
    (hf : st.failure = true) :
    runFolders audio image settingsDict pairsUsed fieldList host l st = st := by
  cases l with
  | nil => rfl
  | cons folder rest => simp [runFolders, hf]

theorem buildNote_sequence (audio image : List String) (fld : String)
    (mediaName fileName ext : String) (i : Nat) (segs : List String)
    (internal internal2 : String) :
    buildNote audio image [(fld, "Sequence", false)] mediaName fileName ext
      i segs internal internal2 = ⟨[(fld, toString i)], []⟩ := rfl

theorem filesGo_sequence (audio image : List String) (host : Host)
    (fld : String) (segs : List String)
    (hok : ∀ k, host.addNoteOk k = true) :
    ∀ (l : List (Nat × String)) (st : RunState),
      (filesGo audio image host false [(fld, "Sequence", false)] segs [] l
        st).notes =
        st.notes ++ (l.filter
          (fun e => (audio ++ image).contains (extOf e.2))).map
          (fun e => (⟨[(fld, toString e.1)], []⟩ : NoteRecord)) ∧
      (filesGo audio image host false [(fld, "Sequence", false)] segs [] l
        st).failure = st.failure ∧
      (filesGo audio image host false [(fld, "Sequence", false)] segs [] l
        st).err = st.err := by
  intro l
  induction l with
  | nil => intro st; exact ⟨by simp [filesGo], rfl, rfl⟩
  | cons e rest ih =>
    intro st
    obtain ⟨i, fileName⟩ := e
    simp only [filesGo]
    by_cases hm : (audio ++ image).contains (extOf fileName) = true
    · have hfc : List.filter
          (fun e => (audio ++ image).contains (extOf e.2))
          ((i, fileName) :: rest) =
          (i, fileName) :: List.filter
            (fun e => (audio ++ image).contains (extOf e.2)) rest :=
        List.filter_cons_of_pos hm
      rw [if_pos hm, if_neg (by decide : ¬(false = true))]
      rw [buildNote_sequence]
      rw [addAttempt_ok host _ _ (hok _)]
      rw [if_pos rfl]
      obtain ⟨ha, hb, hc⟩ := ih { st with
        storedMedia := st.storedMedia ++ [(segs, fileName)]
        notes := st.notes ++ [⟨[(fld, toString i)], []⟩]
        newCount := st.newCount + 1
        progressReports := st.progressReports ++ [st.newCount + 1] }
      refine ⟨?_, hb, hc⟩
      rw [ha, hfc, List.map_cons]
      simp [List.append_assoc]
    · have hfc : List.filter
          (fun e => (audio ++ image).contains (extOf e.2))
          ((i, fileName) :: rest) =
          List.filter (fun e => (audio ++ image).contains (extOf e.2))
            rest := List.filter_cons_of_neg hm
      rw [if_neg hm]
      obtain ⟨ha, hb, hc⟩ := ih st
      exact ⟨by rw [ha, hfc], hb, hc⟩

theorem runFolders_sequence (audio image : List String)
    (settingsDict : List (String × SVal)) (sfx : String)
    (hsfx : dictFind settingsDict "secondImageSuffix" = some (.s sfx))
    (fld : String) (host : Host) (hok : ∀ k, host.addNoteOk k = true) :
    ∀ (folders : List (List String × List String)) (st : RunState),
      st.failure = false → st.err = none →
      (runFolders audio image settingsDict false [(fld, "Sequence", false)]
        host folders st).notes =
        st.notes ++ folders.flatMap (fun folder =>
          (folder.2.enum.filter
            (fun e => (audio ++ image).contains (extOf e.2))).map
            (fun e => (⟨[(fld, toString e.1)], []⟩ : NoteRecord))) := by
  intro folders
  induction folders with
  | nil => intro st _ _; simp [runFolders]
  | cons folder rest ih =>
    intro st hf he
    simp only [runFolders]
    rw [if_neg (by rw [hf, he]; simp)]
    have hpf : processFolder audio image settingsDict false
        [(fld, "Sequence", false)] host folder st =
        filesGo audio image host false [(fld, "Sequence", false)] folder.1
          [] folder.2.enum st := by
      simp only [processFolder, hsfx]
      rw [if_neg (by decide : ¬(false = true))]
    rw [hpf]
    obtain ⟨ha, hb, hc⟩ := filesGo_sequence audio image host fld folder.1
      hok folder.2.enum st
    rw [ih _ (hb.trans hf) (hc.trans he), ha]
    simp [List.append_assoc]

/-- C4, amended: the `Sequence` action produces the decimal string of the
file's zero-based position in the folder's iterated file list — with
pairing disabled this is the raw directory listing, in which excluded
files still advance the index, so the imported files' sequence values are
exactly the positions of the media files in the listing (gap-free
`"0".."N-1"` only when every listed file is media); the index restarts at
each visited folder regardless of recursion depth. -/
theorem c4_sequence_positional (audio image : List String)
    (settingsDict : List (String × SVal)) (sfx : String)
    (hsfx : dictFind settingsDict "secondImageSuffix" = some (.s sfx))
    (fld : String) (recursive : Bool) (tree : DirTree) (host : Host)
    (hok : ∀ k, host.addNoteOk k = true) :
    (doMediaImport audio image settingsDict recursive
        [(fld, "Sequence", false)] tree host).notes =
      (walkFrom recursive [] tree).flatMap (fun folder =>
        (folder.2.enum.filter
          (fun e => (audio ++ image).contains (extOf e.2))).map
          (fun e => (⟨[(fld, toString e.1)], []⟩ : NoteRecord))) := by
  show (runFolders audio image settingsDict false
    [(fld, "Sequence", false)] host (walkFrom recursive [] tree)
    initialRunState).notes = _
  rw [runFolders_sequence audio image settingsDict sfx hsfx fld host hok
    (walkFrom recursive [] tree) initialRunState rfl rfl]
  rfl

/-- Witness for C4's amended theorem: a concrete two-folder tree with an
excluded file in the middle of the root listing. -/
theorem c4_sequence_positional_witness :
    dictFind scenarioSettings "secondImageSuffix" = some (.s "_2") ∧
    (∀ k, alwaysOkHost.addNoteOk k = true) ∧
    (doMediaImport [] ["jpg"] scenarioSettings true
        [("Front", "Sequence", false)]
        (.node "root" ["a.txt", "b.jpg"] [.node "sub" ["c.jpg"] []])
        alwaysOkHost).notes =
      (walkFrom true [] (.node "root" ["a.txt", "b.jpg"]
        [.node "sub" ["c.jpg"] []])).flatMap (fun folder =>
        (folder.2.enum.filter
          (fun e => ([] ++ ["jpg"]).contains (extOf e.2))).map
          (fun e => (⟨[("Front", toString e.1)], []⟩ : NoteRecord))) :=
  ⟨rfl, fun _ => rfl,
   c4_sequence_positional [] ["jpg"] scenarioSettings "_2" rfl "Front" true
     (.node "root" ["a.txt", "b.jpg"] [.node "sub" ["c.jpg"] []])
     alwaysOkHost (fun _ => rfl)⟩

/-- C6, amended: a progress tick is reported exactly once per successfully
created record — not per visited file — carrying the updated `newCount`, so
the reported values are exactly `1, 2, ..., newCount` and are strictly
increasing (in particular monotonically non-decreasing); excluded files and
the failed record-creation attempt produce no tick. -/
theorem c6_progress_per_created_record (audio image : List String)
    (settingsDict : List (String × SVal)) (recursive : Bool)
    (fieldList : List (String × String × Bool)) (tree : DirTree)
    (host : Host) :
    (doMediaImport audio image settingsDict recursive fieldList tree
        host).progressReports =
      (List.range (doMediaImport audio image settingsDict recursive fieldList
        tree host).newCount).map (fun n => n + 1) ∧
    (doMediaImport audio image settingsDict recursive fieldList tree
        host).progressReports.Pairwise (· < ·) := by
  have h := doMediaImport_inv audio image settingsDict recursive fieldList
    tree host
  refine ⟨h.1, ?_⟩
  rw [h.1]
  exact List.pairwise_map.mpr
    ((List.pairwise_lt_range _).imp fun hab => Nat.add_lt_add_right hab 1)

/-- C5: when the host's record-creation collaborator reports a failure
during a run, the run aborts at once: the failing attempt is the last record
ever attempted (`notes.length = newCount + 1`), every earlier attempt
succeeded and is counted in `newCount` (which the run surfaces together
with the failure flag via the tooltip and failure dialog), the progress
sink saw exactly the successful records, and processing any further folders
from the aborted state is a no-op; nothing is rolled back — the state keeps
all previously created records and stored media. -/
theorem c5_record_failure_aborts (audio image : List String)
    (settingsDict : List (String × SVal)) (recursive : Bool)
    (fieldList : List (String × String × Bool)) (tree : DirTree)
    (host : Host)
    (hfail : (doMediaImport audio image settingsDict recursive fieldList tree
      host).failure = true) :
    (doMediaImport audio image settingsDict recursive fieldList tree
        host).notes.length =
      (doMediaImport audio image settingsDict recursive fieldList tree
        host).newCount + 1 ∧
    host.addNoteOk (doMediaImport audio image settingsDict recursive
      fieldList tree host).newCount = false ∧
    (∀ j, j < (doMediaImport audio image settingsDict recursive fieldList
      tree host).newCount → host.addNoteOk j = true) ∧
    (doMediaImport audio image settingsDict recursive fieldList tree
        host).progressReports =
      (List.range (doMediaImport audio image settingsDict recursive fieldList
        tree host).newCount).map (fun n => n + 1) ∧
    (∀ (audio2 image2 : List String) (sd2 : List (String × SVal))
      (pu2 : Bool) (fl2 : List (String × String × Bool)) (host2 : Host)
      (extra : List (List String × List String)),
      runFolders audio2 image2 sd2 pu2 fl2 host2 extra
        (doMediaImport audio image settingsDict recursive fieldList tree
          host) =
      doMediaImport audio image settingsDict recursive fieldList tree
        host) := by
  have h := doMediaImport_inv audio image settingsDict recursive fieldList
    tree host
  obtain ⟨h1, h2, h3⟩ := h
  rw [hfail] at h3
  simp only [if_true] at h3
  exact ⟨h3.1, h3.2, h2, h1,
    fun audio2 image2 sd2 pu2 fl2 host2 extra =>
      runFolders_halt audio2 image2 sd2 pu2 fl2 host2 extra _ hfail⟩

/-- Witness for C5: a concrete run whose only record-creation attempt fails
satisfies the hypothesis and the conclusions of
`c5_record_failure_aborts`. -/
theorem c5_record_failure_aborts_witness :
    (doMediaImport [] ["jpg"] scenarioSettings false
      [("Front", "Media", false)] (.node "root" ["b.jpg"] [])
      alwaysFailHost).failure = true ∧
    ((doMediaImport [] ["jpg"] scenarioSettings false
        [("Front", "Media", false)] (.node "root" ["b.jpg"] [])
        alwaysFailHost).notes.length =
      (doMediaImport [] ["jpg"] scenarioSettings false
        [("Front", "Media", false)] (.node "root" ["b.jpg"] [])
        alwaysFailHost).newCount + 1 ∧
    alwaysFailHost.addNoteOk (doMediaImport [] ["jpg"] scenarioSettings false
      [("Front", "Media", false)] (.node "root" ["b.jpg"] [])
      alwaysFailHost).newCount = false ∧
    (∀ j, j < (doMediaImport [] ["jpg"] scenarioSettings false
      [("Front", "Media", false)] (.node "root" ["b.jpg"] [])
      alwaysFailHost).newCount → alwaysFailHost.addNoteOk j = true) ∧
    (doMediaImport [] ["jpg"] scenarioSettings false
        [("Front", "Media", false)] (.node "root" ["b.jpg"] [])
        alwaysFailHost).progressReports =
      (List.range (doMediaImport [] ["jpg"] scenarioSettings false
        [("Front", "Media", false)] (.node "root" ["b.jpg"] [])
        alwaysFailHost).newCount).map (fun n => n + 1) ∧
    (∀ (audio2 image2 : List String) (sd2 : List (String × SVal))
      (pu2 : Bool) (fl2 : List (String × String × Bool)) (host2 : Host)
      (extra : List (List String × List String)),
      runFolders audio2 image2 sd2 pu2 fl2 host2 extra
        (doMediaImport [] ["jpg"] scenarioSettings false
          [("Front", "Media", false)] (.node "root" ["b.jpg"] [])
          alwaysFailHost) =
      doMediaImport [] ["jpg"] scenarioSettings false
        [("Front", "Media", false)] (.node "root" ["b.jpg"] [])
        alwaysFailHost)) :=
  ⟨rfl, c5_record_failure_aborts [] ["jpg"] scenarioSettings false
    [("Front", "Media", false)] (.node "root" ["b.jpg"] []) alwaysFailHost
    rfl⟩

theorem pyUnion_nil {α : Type} {l : List (String × α)} (h : NodupKeys l) :
    pyUnion [] l = l := by
  have := pyUnion_eq_append l [] (fun x hx => by simp [keys]) h
  simpa using this

/-- Re-inserting the entries of a dict whose key list extends `keys a` only
by fresh keys into `a` reproduces that dict: the update pass rebuilds the
`keys a` prefix in place and re-appends the extras in order. -/
theorem pyUnion_absorb {α : Type} {a M : List (String × α)}
    (ha : NodupKeys a) (hM : NodupKeys M) (E : List String)
    (hkeys : keys M = keys a ++ E) (hE : ∀ x ∈ E, ¬ x ∈ keys a) :
    pyUnion a M = M := by
  apply dict_ext _ _ (nodupKeys_pyUnion ha M) hM
  · rw [keys_pyUnion, newKeys_eq_filter hM, hkeys, List.filter_append]
    have h1 : (keys a).filter (fun k => !(decide (k ∈ keys a))) = [] := by
      apply List.filter_eq_nil_iff.mpr
      intro x hx
      simp [hx]
    have h2 : E.filter (fun k => !(decide (k ∈ keys a))) = E := by
      apply List.filter_eq_self.mpr
      intro x hx
      simp [hE x hx]
    rw [h1, h2]
    rfl
  · intro k
    rw [dictFind_pyUnion, lastVal_eq_dictFind hM k]
    cases hf : dictFind M k with
    | some v => rfl
    | none =>
      have hku : ¬ k ∈ keys M := (dictFind_eq_none_iff M k).mp hf
      have hka : ¬ k ∈ keys a :=
        fun hc => hku (hkeys ▸ List.mem_append_left E hc)
      exact (dictFind_eq_none_iff a k).mpr hka

theorem saveSettings_eq (st : List (String × SVal)) (v1 v2 : SVal)
    (h1 : dictFind st "secondMediaSuffix" = some v1)
    (h2 : dictFind st "showExtensionActions" = some v2) :
    saveSettings st = some
      ([("secondMediaSuffix", v1), ("showExtensionActions", v2)],
       st.filter (fun e => !(decide (e.1 ∈ keys defaultUserSettings)))) := by
  simp [saveSettings, defaultUserSettings, List.mapM.loop, h1, h2]

/-- C9: `saveSettings` after `initializeSettings` always succeeds, and
reloading the two written documents with `initializeSettings` reproduces
the identical settings dict — same field-mapping tables, flags, values and
key order; moreover the defaults-merge performed at load is idempotent:
merging an already-merged settings document with the defaults again yields
the same document. -/
theorem c9_settings_roundtrip_and_merge_idempotent (home : String)
    (transientDoc userDoc : List (String × SVal)) :
    (∃ userDoc2 transientDoc2,
      saveSettings (initializeSettings home [] transientDoc userDoc) =
        some (userDoc2, transientDoc2) ∧
      initializeSettings home [] transientDoc2 userDoc2 =
        initializeSettings home [] transientDoc userDoc) ∧
    (∀ t u : List (String × SVal),
      mergedSettings home (mergedSettings home t u) [] =
        mergedSettings home t u) := by
  have hKA : keys (pyUnion (defaultTransientSettings home)
      defaultUserSettings) =
      ["loadFolder", "includeSubfolders", "fieldSettings",
       "secondMediaSuffix", "showExtensionActions"] := rfl
  have hA : NodupKeys (pyUnion (defaultTransientSettings home)
      defaultUserSettings) := by
    unfold NodupKeys
    rw [hKA]
    decide
  have hMeq : ∀ t u : List (String × SVal), mergedSettings home t u =
      pyUnion (pyUnion (defaultTransientSettings home) defaultUserSettings)
        (t ++ u) := by
    intro t u
    show pyUnion (pyUnion (pyUnion (defaultTransientSettings home)
      defaultUserSettings) t) u = _
    rw [pyUnion_append]
  have hStEq : ∀ t u : List (String × SVal),
      initializeSettings home [] t u =
        pyUnion (pyUnion (defaultTransientSettings home)
          defaultUserSettings) (t ++ u) := by
    intro t u
    show pyUnion [] (mergedSettings home t u) = _
    rw [hMeq t u]
    exact pyUnion_nil (nodupKeys_pyUnion hA _)
  constructor
  · -- Save-then-reload round trip.
    have hnodupM : NodupKeys (pyUnion (pyUnion (defaultTransientSettings
        home) defaultUserSettings) (transientDoc ++ userDoc)) :=
      nodupKeys_pyUnion hA _
    have hkeysM : keys (pyUnion (pyUnion (defaultTransientSettings home)
        defaultUserSettings) (transientDoc ++ userDoc)) =
        keys (pyUnion (defaultTransientSettings home) defaultUserSettings)
          ++ newKeys (keys (pyUnion (defaultTransientSettings home)
            defaultUserSettings)) (transientDoc ++ userDoc) :=
      keys_pyUnion _ _
    have hm1 : "secondMediaSuffix" ∈ keys (pyUnion (pyUnion
        (defaultTransientSettings home) defaultUserSettings)
        (transientDoc ++ userDoc)) := by
      rw [hkeysM]
      exact List.mem_append_left _ (by rw [hKA]; decide)
    have hm2 : "showExtensionActions" ∈ keys (pyUnion (pyUnion
        (defaultTransientSettings home) defaultUserSettings)
        (transientDoc ++ userDoc)) := by
      rw [hkeysM]
      exact List.mem_append_left _ (by rw [hKA]; decide)
    obtain ⟨v1, hv1⟩ := exists_dictFind_of_mem_keys hm1
    obtain ⟨v2, hv2⟩ := exists_dictFind_of_mem_keys hm2
    refine ⟨[("secondMediaSuffix", v1), ("showExtensionActions", v2)],
      (pyUnion (pyUnion (defaultTransientSettings home)
        defaultUserSettings) (transientDoc ++ userDoc)).filter
        (fun e => !(decide (e.1 ∈ keys defaultUserSettings))), ?_, ?_⟩
    · rw [hStEq transientDoc userDoc]
      exact saveSettings_eq _ v1 v2 hv1 hv2
    · rw [hStEq transientDoc userDoc, hStEq _ _]
      -- Notation for this block: M is the merged dict of the first load,
      -- t2 its transient part, u2 its user part.
      have hE : ∀ x ∈ newKeys (keys (pyUnion (defaultTransientSettings home)
          defaultUserSettings)) (transientDoc ++ userDoc),
          ¬ x ∈ keys (pyUnion (defaultTransientSettings home)
            defaultUserSettings) :=
        fun x hx => mem_newKeys_not_mem_seen hx
      have hsub : ∀ y ∈ keys defaultUserSettings,
          y ∈ keys (pyUnion (defaultTransientSettings home)
            defaultUserSettings) := by
        rw [hKA]
        decide
      have ht2keys : keys ((pyUnion (pyUnion (defaultTransientSettings home)
          defaultUserSettings) (transientDoc ++ userDoc)).filter
          (fun e => !(decide (e.1 ∈ keys defaultUserSettings)))) =
          (keys (pyUnion (pyUnion (defaultTransientSettings home)
            defaultUserSettings) (transientDoc ++ userDoc))).filter
            (fun k => !(decide (k ∈ keys defaultUserSettings))) :=
        keys_filter _ (fun k => !(decide (k ∈ keys defaultUserSettings)))
      have ht2nodup : NodupKeys ((pyUnion (pyUnion
          (defaultTransientSettings home) defaultUserSettings)
          (transientDoc ++ userDoc)).filter
          (fun e => !(decide (e.1 ∈ keys defaultUserSettings)))) := by
        unfold NodupKeys
        rw [ht2keys]
        exact List.Nodup.filter _ hnodupM
      have ht2keys2 : keys ((pyUnion (pyUnion (defaultTransientSettings
          home) defaultUserSettings) (transientDoc ++ userDoc)).filter
          (fun e => !(decide (e.1 ∈ keys defaultUserSettings)))) =
          ["loadFolder", "includeSubfolders", "fieldSettings"] ++
          newKeys (keys (pyUnion (defaultTransientSettings home)
            defaultUserSettings)) (transientDoc ++ userDoc) := by
        rw [ht2keys, hkeysM, List.filter_append]
        have h1 : (keys (pyUnion (defaultTransientSettings home)
            defaultUserSettings)).filter
            (fun k => !(decide (k ∈ keys defaultUserSettings))) =
            ["loadFolder", "includeSubfolders", "fieldSettings"] := by
          rw [hKA]
          decide
        have h2 : (newKeys (keys (pyUnion (defaultTransientSettings home)
            defaultUserSettings)) (transientDoc ++ userDoc)).filter
            (fun k => !(decide (k ∈ keys defaultUserSettings))) =
            newKeys (keys (pyUnion (defaultTransientSettings home)
              defaultUserSettings)) (transientDoc ++ userDoc) := by
          apply List.filter_eq_self.mpr
          intro x hx
          have : ¬ x ∈ keys defaultUserSettings :=
            fun hc => hE x hx (hsub x hc)
          simp [this]
        rw [h1, h2]
      apply dict_ext _ _ (nodupKeys_pyUnion hA _) hnodupM
      · -- Equal key lists.
        rw [keys_pyUnion, newKeys_append, hkeysM]
        have hu2nil : newKeys (keys (pyUnion (defaultTransientSettings home)
            defaultUserSettings) ++ newKeys (keys (pyUnion
              (defaultTransientSettings home) defaultUserSettings))
              ((pyUnion (pyUnion (defaultTransientSettings home)
                defaultUserSettings) (transientDoc ++ userDoc)).filter
                (fun e => !(decide (e.1 ∈ keys defaultUserSettings)))))
            [("secondMediaSuffix", v1), ("showExtensionActions", v2)] =
            [] := by
          apply newKeys_nil_of_mem
          intro e he
          rcases List.mem_cons.mp he with rfl | he2
          · exact List.mem_append_left _ (by rw [hKA]; simp)
          · rcases List.mem_cons.mp he2 with rfl | he3
            · exact List.mem_append_left _ (by rw [hKA]; simp)
            · exact absurd he3 (List.not_mem_nil e)
        rw [hu2nil, List.append_nil]
        have ht2new : newKeys (keys (pyUnion (defaultTransientSettings home)
            defaultUserSettings)) ((pyUnion (pyUnion
              (defaultTransientSettings home) defaultUserSettings)
              (transientDoc ++ userDoc)).filter
              (fun e => !(decide (e.1 ∈ keys defaultUserSettings)))) =
            newKeys (keys (pyUnion (defaultTransientSettings home)
              defaultUserSettings)) (transientDoc ++ userDoc) := by
          rw [newKeys_eq_filter ht2nodup, ht2keys2, List.filter_append]
          have h1 : (["loadFolder", "includeSubfolders",
              "fieldSettings"]).filter (fun k => !(decide (k ∈ keys
              (pyUnion (defaultTransientSettings home)
                defaultUserSettings)))) = [] := by
            rw [hKA]
            decide
          have h2 : (newKeys (keys (pyUnion (defaultTransientSettings home)
              defaultUserSettings)) (transientDoc ++ userDoc)).filter
              (fun k => !(decide (k ∈ keys (pyUnion
                (defaultTransientSettings home) defaultUserSettings)))) =
              newKeys (keys (pyUnion (defaultTransientSettings home)
                defaultUserSettings)) (transientDoc ++ userDoc) := by
            apply List.filter_eq_self.mpr
            intro x hx
            simp [hE x hx]
          rw [h1, h2, List.nil_append]
        rw [ht2new]
      · -- Equal lookups.
        intro k
        rw [dictFind_pyUnion, lastVal_append]
        by_cases hk1 : k = "secondMediaSuffix"
        · rw [hk1]
          have hlu2 : lastVal [("secondMediaSuffix", v1),
              ("showExtensionActions", v2)] "secondMediaSuffix" =
              some v1 := by
            simp [lastVal]
          rw [hlu2, hv1]
        · by_cases hk2 : k = "showExtensionActions"
          · rw [hk2]
            have hlu2 : lastVal [("secondMediaSuffix", v1),
                ("showExtensionActions", v2)] "showExtensionActions" =
                some v2 := by
              simp [lastVal]
            rw [hlu2, hv2]
          · have hne1 : ¬ ("secondMediaSuffix" = k) :=
              fun hc => hk1 hc.symm
            have hne2 : ¬ ("showExtensionActions" = k) :=
              fun hc => hk2 hc.symm
            have hlu2 : lastVal [("secondMediaSuffix", v1),
                ("showExtensionActions", v2)] k = none := by
              simp [lastVal, hne1, hne2]
            rw [hlu2]
            have hqk : (!(decide (k ∈ keys defaultUserSettings))) = true := by
              have : ¬ k ∈ keys defaultUserSettings := by
                intro hc
                rcases List.mem_cons.mp hc with h1 | h1
                · exact hk1 h1
                · rcases List.mem_cons.mp h1 with h3 | h3
                  · exact hk2 h3
                  · exact List.not_mem_nil k h3
              simp [this]
            have hlt2 : lastVal ((pyUnion (pyUnion
                (defaultTransientSettings home) defaultUserSettings)
                (transientDoc ++ userDoc)).filter
                (fun e => !(decide (e.1 ∈ keys defaultUserSettings)))) k =
                dictFind (pyUnion (pyUnion (defaultTransientSettings home)
                  defaultUserSettings) (transientDoc ++ userDoc)) k := by
              rw [lastVal_eq_dictFind ht2nodup k]
              exact dictFind_filter _
                (fun k => !(decide (k ∈ keys defaultUserSettings))) k hqk
            rw [hlt2]
            cases hm : dictFind (pyUnion (pyUnion
                (defaultTransientSettings home) defaultUserSettings)
                (transientDoc ++ userDoc)) k with
            | some v => rfl
            | none =>
              have hkM : ¬ k ∈ keys (pyUnion (pyUnion
                  (defaultTransientSettings home) defaultUserSettings)
                  (transientDoc ++ userDoc)) :=
                (dictFind_eq_none_iff _ _).mp hm
              have hkA : ¬ k ∈ keys (pyUnion (defaultTransientSettings
                  home) defaultUserSettings) :=
                fun hc => hkM (hkeysM ▸ List.mem_append_left _ hc)
              exact (dictFind_eq_none_iff _ _).mpr hkA
  · -- Idempotence of the defaults merge.
    intro t u
    have hMnodup : NodupKeys (mergedSettings home t u) := by
      rw [hMeq t u]
      exact nodupKeys_pyUnion hA _
    show pyUnion (pyUnion (defaultTransientSettings home)
        defaultUserSettings) (mergedSettings home t u) =
      mergedSettings home t u
    apply pyUnion_absorb hA hMnodup
      (newKeys (keys (pyUnion (defaultTransientSettings home)
        defaultUserSettings)) (t ++ u))
    · rw [hMeq t u, keys_pyUnion]
    · intro x hx
      exact mem_newKeys_not_mem_seen hx

/-- Once an uncaught error is recorded, the folder loop is inert (the
exception propagates out of `doMediaImport`). -/
theorem runFolders_halt_err (audio image : List String)
    (settingsDict : List (String × SVal)) (pairsUsed : Bool)
    (fieldList : List (String × String × Bool)) (host : Host)
    (l : List (List String × List String)) (st : RunState)
    (he : st.err.isSome = true) :
    runFolders audio image settingsDict pairsUsed fieldList host l st = st := by
  cases l with
  | nil => rfl
  | cons folder rest => simp [runFolders, he]

/-- C10: when neither the on-disk transient settings document nor the
host's config document defines the key `secondImageSuffix`, the settings
dict produced by `initializeSettings` does not contain it — the defaults
only ever install `loadFolder`, `includeSubfolders`, `fieldSettings`,
`secondMediaSuffix` and `showExtensionActions` — so the per-folder read
`settings["secondImageSuffix"]` of `doMediaImport` (line 97) raises
`KeyError` at the first visited folder, before any file is imported: the
run ends with no media stored, no record attempted and the key-lookup
error recorded. -/
theorem c10_settings_key_mismatch (home : String)
    (transientDoc userDoc : List (String × SVal))
    (ht : ¬ "secondImageSuffix" ∈ keys transientDoc)
    (hu : ¬ "secondImageSuffix" ∈ keys userDoc)
    (audio image : List String) (recursive : Bool)
    (fieldList : List (String × String × Bool)) (tree : DirTree)
    (host : Host) :
    dictFind (initializeSettings home [] transientDoc userDoc)
      "secondImageSuffix" = none ∧
    keys (initializeSettings home [] [] []) =
      ["loadFolder", "includeSubfolders", "fieldSettings",
       "secondMediaSuffix", "showExtensionActions"] ∧
    doMediaImport audio image
      (initializeSettings home [] transientDoc userDoc) recursive fieldList
      tree host =
      { initialRunState with err := some "KeyError: secondImageSuffix" } := by
  have hdT : ¬ "secondImageSuffix" ∈ keys (defaultTransientSettings home) := by
    have h : keys (defaultTransientSettings home) =
        ["loadFolder", "includeSubfolders", "fieldSettings"] := rfl
    rw [h]; decide
  have hdU : ¬ "secondImageSuffix" ∈ keys defaultUserSettings := by decide
  have hmerged : ¬ "secondImageSuffix" ∈
      keys (pyUnion (pyUnion (pyUnion (defaultTransientSettings home)
        defaultUserSettings) transientDoc) userDoc) :=
    not_mem_keys_pyUnion
      (not_mem_keys_pyUnion (not_mem_keys_pyUnion hdT hdU) ht) hu
  have hfind : dictFind (initializeSettings home [] transientDoc userDoc)
      "secondImageSuffix" = none := by
    show dictFind (pyUnion []
      (pyUnion (pyUnion (pyUnion (defaultTransientSettings home)
        defaultUserSettings) transientDoc) userDoc)) "secondImageSuffix" =
      none
    rw [dictFind_pyUnion, (lastVal_eq_none_iff _ _).mpr hmerged]
    rfl
  refine ⟨hfind, rfl, ?_⟩
  cases tree with
  | node nm files subs =>
    show runFolders audio image _ _ fieldList host
      (([], files) :: (if recursive then walkSubs recursive [] subs else []))
      initialRunState = _
    simp only [runFolders]
    rw [if_neg (by simp [initialRunState])]
    have hpf : processFolder audio image
        (initializeSettings home [] transientDoc userDoc)
        (fieldList.any (fun e => e.2.1 == "Media_2")) fieldList host
        ([], files) initialRunState =
        { initialRunState with err := some "KeyError: secondImageSuffix" } := by
      simp only [processFolder, hfind]
    rw [hpf]
    exact runFolders_halt_err _ _ _ _ _ _ _ _ rfl

/-- Witness for C10: concrete empty documents (a fresh install) with a
concrete run. -/
theorem c10_settings_key_mismatch_witness :
    (¬ "secondImageSuffix" ∈ keys ([] : List (String × SVal))) ∧
    (dictFind (initializeSettings "HOME" [] [] []) "secondImageSuffix" =
      none ∧
    keys (initializeSettings "HOME" [] [] []) =
      ["loadFolder", "includeSubfolders", "fieldSettings",
       "secondMediaSuffix", "showExtensionActions"] ∧
    doMediaImport ["mp3"] ["jpg"] (initializeSettings "HOME" [] [] []) true
      [("Front", "Media", false)] (.node "root" ["a.jpg"] []) alwaysOkHost =
      { initialRunState with err := some "KeyError: secondImageSuffix" }) :=
  ⟨by decide,
   c10_settings_key_mismatch "HOME" [] [] (by decide) (by decide) ["mp3"]
     ["jpg"] true [("Front", "Media", false)] (.node "root" ["a.jpg"] [])
     alwaysOkHost⟩

/-- C7, amended: on the relative folder path `f1/f2/f3`,
`TagsHierarchical` yields the single tag `"f1::f2::f3"` and
`TagsIndividual` yields the three tags `f1`, `f2`, `f3`; for a file in the
root folder itself, `TagsIndividual` contributes no tags while
`TagsHierarchical` contributes exactly one empty-string tag. -/
theorem c7_tag_actions :
    (buildNote [] ["jpg"] [("Tags", "Subfolder tag (hierarchical)", true)]
        "a" "a.jpg" "jpg" 0 ["f1", "f2", "f3"] "m" "").tags =
      ["f1::f2::f3"] ∧
    (buildNote [] ["jpg"] [("Tags", "Subfolder tags (individual)", true)]
        "a" "a.jpg" "jpg" 0 ["f1", "f2", "f3"] "m" "").tags =
      ["f1", "f2", "f3"] ∧
    (buildNote [] ["jpg"] [("Tags", "Subfolder tags (individual)", true)]
        "a" "a.jpg" "jpg" 0 [] "m" "").tags = [] ∧
    (buildNote [] ["jpg"] [("Tags", "Subfolder tag (hierarchical)", true)]
        "a" "a.jpg" "jpg" 0 [] "m" "").tags = [""] := by
  refine ⟨rfl, rfl, rfl, rfl⟩

end MediaImport
